import Mathlib


/-!
Verification of the document ingestion and chunking pipeline of the
grantee-insights chatbot repository.

Strings from the source program are modelled as `List Char` (named `Str`),
matching JavaScript string semantics character by character for the ASCII
range that the claims exercise; `String` is used for opaque labels and
error messages.  External collaborators (the drive API, the vector store,
the LLM call) are modelled as explicit outcome parameters of type
`Except`/`Option`, so that a thrown exception, a failed query and a
successful result are all first-class values.
-/

set_option linter.unusedVariables false

abbrev Str := List Char

/-- JavaScript whitespace characters relevant to the inputs handled here
(`String.prototype.trim` and the `\s` character class). -/
def isWsChar (c : Char) : Bool :=
  c = ' ' || c = '\n' || c = '\t' || c = '\r'

/-- Model of `s.trim()`: drop whitespace from both ends. -/
def trimStr (s : Str) : Str :=
  ((s.dropWhile isWsChar).reverse.dropWhile isWsChar).reverse

/-- Model of `c >= '0' && c <= '9'` membership used throughout; identical to
`Char.isDigit`. -/
abbrev isDigitChar (c : Char) : Bool := c.isDigit

/-- Worker for `text.split(/\n\n+/)`: `acc` is the current segment in
reverse, `pending` counts newline characters read but not yet classified
as either a separator (two or more) or literal text (fewer than two). -/
def splitParasGo : Str → Str → Nat → List Str
  | [], acc, pending =>
    if pending ≥ 2 then [acc.reverse, []]
    else [(List.replicate pending '\n' ++ acc).reverse]
  | '\n' :: rest, acc, pending => splitParasGo rest acc (pending + 1)
  | c :: rest, acc, pending =>
    if pending ≥ 2 then acc.reverse :: splitParasGo rest [c] 0
    else splitParasGo rest (c :: (List.replicate pending '\n' ++ acc)) 0

/-- Model of `text.split(/\n\n+/)`: split on maximal runs of at least two
newline characters. -/
def splitParas (s : Str) : List Str := splitParasGo s [] 0

/-- ASCII lower-casing of one character, the fragment of
`String.prototype.toLowerCase` exercised by the registry names and
filenames handled here. -/
def lowerChar (c : Char) : Char :=
  if 'A' ≤ c ∧ c ≤ 'Z' then Char.ofNat (c.toNat + 32) else c

/-- Model of `s.toLowerCase()`. -/
def toLowerStr (s : Str) : Str := s.map lowerChar

/-- Is `p` a prefix of `s`?  Building block for substring containment. -/
def strStartsWith : Str → Str → Bool
  | [], _ => true
  | _ :: _, [] => false
  | p :: ps, s :: ss => p = s && strStartsWith ps ss

/-- Model of `haystack.includes(needle)`: substring containment. -/
def strContains (needle : Str) : Str → Bool
  | [] => strStartsWith needle []
  | hay@(_ :: t) => strStartsWith needle hay || strContains needle t

/-- Worker for splitting on whitespace runs: collects maximal non-whitespace
runs.  After the input has been trimmed this agrees with
`s.split(/\s+/)`; the caller always filters the result by a positive
length bound, which discards the empty boundary tokens `split` can emit
on untrimmed input, so the two agree in every use below. -/
def wordsOfGo : Str → Str → List Str
  | [], acc => if acc.isEmpty then [] else [acc.reverse]
  | c :: rest, acc =>
    if isWsChar c then
      (if acc.isEmpty then wordsOfGo rest [] else acc.reverse :: wordsOfGo rest [])
    else wordsOfGo rest (c :: acc)

/-- Model of `s.split(/\s+/)` on trimmed input. -/
def wordsOf (s : Str) : List Str := wordsOfGo s []

/-! ## Segmentation engine (chunking.ts)

`SegChunk` is one produced chunk: its text, its per-chunk fields
(`chunk_index`, `section_type`, `section_heading`) and the base metadata
that the source spreads into every chunk (`...base`).  Unique-id
assignment (`makeChunk` and the module-level counter) is modelled
separately below, since no claim ties the ids to the segment texts. -/

inductive SectionType
  | project_summary | scope_of_work | partnerships | technology | timeline
  | outcomes | measurement | budget
  | breadth_scale | depth_outcomes | learnings | challenges | future_plans
  | feedback | financial
  | stage | progress | early_signals
  | pivots | data_measurement | org_changes | support_requests
  | notable_quotes | transcript_summary
  | full_document
deriving DecidableEq, Repr

structure SegChunk (α : Type) where
  base : α
  text : Str
  chunk_index : Nat
  section_type : SectionType
  section_heading : String
deriving DecidableEq, Repr

/-- The paragraph-accumulation loop shared by `chunkBySize` and
`chunkTranscriptByParagraph`: walk the paragraph list keeping the current
group `cur` and its accumulated character count `curLen`; when adding the
next paragraph would exceed `maxChars` and the group is non-empty, close
the group and start a new one with that paragraph.  Returns the groups in
order; the caller joins each group with a blank line. -/
def accumParas (maxChars : Nat) : List Str → List Str → Nat → List (List Str)
  | [], cur, _ => if cur.isEmpty then [] else [cur]
  | p :: rest, cur, curLen =>
    if curLen + p.length > maxChars ∧ cur ≠ [] then
      cur :: accumParas maxChars rest [p] p.length
    else
      accumParas maxChars rest (cur ++ [p]) (curLen + p.length)

/-- Model of `array.join("\n\n")`. -/
def joinParas : List Str → Str
  | [] => []
  | [p] => p
  | p :: ps => p ++ '\n' :: '\n' :: joinParas ps

/-- `chunkBySize(text, maxChars, base)`: split into paragraphs, drop the
ones that trim to nothing, group them by the accumulation loop, and fall
back to one whole-text chunk when no paragraph survived but the text is
non-blank. -/
def chunkBySize {α : Type} (text : Str) (maxChars : Nat) (base : α) :
    List (SegChunk α) :=
  let paragraphs := (splitParas text).filter (fun p => (trimStr p).length > 0)
  let groups := accumParas maxChars paragraphs [] 0
  let chunks := groups.enum.map (fun ig =>
    { base := base, text := joinParas ig.2, chunk_index := ig.1,
      section_type := SectionType.full_document,
      section_heading := s!"Section {ig.1 + 1}" })
  if chunks.isEmpty ∧ (trimStr text).length > 0 then
    [{ base := base, text := text, chunk_index := 0,
       section_type := SectionType.full_document,
       section_heading := "Full Document" }]
  else chunks

/-- `chunkTranscriptByParagraph(text, base)`: paragraphs shorter than 21
characters after trimming are dropped, target size is 1500, every chunk
is tagged `progress`. -/
def chunkTranscriptByParagraph {α : Type} (text : Str) (base : α) :
    List (SegChunk α) :=
  let paragraphs := (splitParas text).filter (fun p => (trimStr p).length > 20)
  let groups := accumParas 1500 paragraphs [] 0
  groups.enum.map (fun ig =>
    { base := base, text := joinParas ig.2, chunk_index := ig.1,
      section_type := SectionType.progress,
      section_heading := s!"Transcript segment {ig.1 + 1}" })

/-- Total character count of a group of paragraphs, excluding separators. -/
def sumLen (g : List Str) : Nat := (g.map List.length).sum

/-- The paragraph groups formed by `chunkBySize text maxChars`. -/
def sizeGroups (maxChars : Nat) (text : Str) : List (List Str) :=
  accumParas maxChars
    ((splitParas text).filter (fun p => (trimStr p).length > 0)) [] 0

/-- The paragraph groups formed by `chunkTranscriptByParagraph text`. -/
def transcriptGroups (text : Str) : List (List Str) :=
  accumParas 1500
    ((splitParas text).filter (fun p => (trimStr p).length > 20)) [] 0

/-! ## Filename classifier (filename-parser.ts)

`REF_NUMBER_PATTERN = /(?:^|[^0-9])(20[2-3]\d{4}[A-Z]?)(?=[^0-9]|$)/` and
`filename.match(...)` taking the first (leftmost, greedy) match.  The
scan below reproduces the engine's attempt order: the capture group is
tried at position 0 (via `^`) and after every non-digit character, in
increasing position order; at one position the optional trailing
uppercase letter is consumed greedily when the lookahead after it holds,
otherwise the engine backtracks to the seven-digit form. -/

/-- The fixed digit-run shape `20[2-3]\d{4}`. -/
def pat7 (c1 c2 c3 c4 c5 c6 c7 : Char) : Bool :=
  c1 = '2' && c2 = '0' && (c3 = '2' || c3 = '3') &&
    c4.isDigit && c5.isDigit && c6.isDigit && c7.isDigit

/-- The lookahead `(?=[^0-9]|$)`: end of string or a non-digit next. -/
def nonDigitBoundary : Str → Bool
  | [] => true
  | c :: _ => !c.isDigit

/-- One attempt of the capture group at the head of `s`, greedy in the
optional uppercase letter, with the trailing lookahead. -/
def coreMatch : Str → Option Str
  | c1 :: c2 :: c3 :: c4 :: c5 :: c6 :: c7 :: rest =>
    if pat7 c1 c2 c3 c4 c5 c6 c7 then
      match rest with
      | [] => some [c1, c2, c3, c4, c5, c6, c7]
      | r1 :: rest2 =>
        if r1.isUpper && nonDigitBoundary rest2 then
          some [c1, c2, c3, c4, c5, c6, c7, r1]
        else if !r1.isDigit then some [c1, c2, c3, c4, c5, c6, c7]
        else none
    else none
  | _ => none

/-- The left-to-right scan of `String.prototype.match`: attempt the capture
group at the current position whenever the previous character was not a
digit (or at the start of the string), else move one character right. -/
def scanRef : Str → Bool → Option Str
  | [], _ => none
  | s@(c :: rest), prevDigit =>
    match (if prevDigit then none else coreMatch s) with
    | some t => some t
    | none => scanRef rest c.isDigit

/-- Model of `filename.match(REF_NUMBER_PATTERN)?.[1] ?? null`. -/
def findRefNumber (filename : Str) : Option Str := scanRef filename false

/-- Spec-side: the token `20[2-3]\d{4}` starts at the head of `u` and the
character after it (if any) is not a digit. -/
def tokenOk7 : Str → Bool
  | c1 :: c2 :: c3 :: c4 :: c5 :: c6 :: c7 :: rest =>
    pat7 c1 c2 c3 c4 c5 c6 c7 && nonDigitBoundary rest
  | _ => false

/-- Spec-side: the token `20[2-3]\d{4}[A-Z]` (with the letter) starts at the
head of `u` and the character after it (if any) is not a digit. -/
def tokenOk8 : Str → Bool
  | c1 :: c2 :: c3 :: c4 :: c5 :: c6 :: c7 :: c8 :: rest =>
    pat7 c1 c2 c3 c4 c5 c6 c7 && c8.isUpper && nonDigitBoundary rest
  | _ => false

/-- Spec-side boundary before position `j + 1`: the character at `j` exists
and is not a digit. -/
def nonDigitAt (s : Str) (j : Nat) : Bool :=
  match s.get? j with
  | some c => !c.isDigit
  | none => false

/-- Definition following the specification text: scan the positions of the
filename from left to right and return the first substring matching the
reference-number shape with a non-digit (or string boundary) immediately
before and after, preferring the form with the trailing uppercase letter
at a given position (the greedy reading of "optionally followed by one
uppercase letter"). -/
def specFindRef (s : Str) : Option Str :=
  (List.range (s.length + 1)).findSome? (fun i =>
    let boundaryBefore := if i = 0 then true else nonDigitAt s (i - 1)
    if tokenOk8 (s.drop i) && boundaryBefore then some ((s.drop i).take 8)
    else if tokenOk7 (s.drop i) && boundaryBefore then some ((s.drop i).take 7)
    else none)

/-- Bridge between the scan and the positional specification: the first
valid reference number within the suffix `u`, where `prev` records
whether the character just before the suffix was a digit. -/
def specSuffix (u : Str) (prev : Bool) : Option Str :=
  (List.range (u.length + 1)).findSome? (fun k =>
    let b := if k = 0 then !prev else nonDigitAt u (k - 1)
    if tokenOk8 (u.drop k) && b then some ((u.drop k).take 8)
    else if tokenOk7 (u.drop k) && b then some ((u.drop k).take 7)
    else none)

/-- The five document types of the pipeline. -/
inductive DocumentType
  | grant_description | midpoint_checkin_transcript | midpoint_survey
  | impact_survey | closeout_transcript
deriving DecidableEq, Repr

/-- A piece of one of the `DOC_TYPE_PATTERNS` regexes: the patterns use
only literal runs, `.*` gaps and `\s*` gaps. -/
inductive PatPiece
  | lit (s : Str)
  | anyGap
  | wsGap
deriving Repr

/-- Does the pattern match starting exactly at the head of `s`?  A `.*`
gap may skip any number of characters, a `\s*` gap only whitespace. -/
def patMatchAt : List PatPiece → Str → Bool
  | [], _ => true
  | .lit l :: ps, s => strStartsWith l s && patMatchAt ps (s.drop l.length)
  | .anyGap :: ps, s =>
    (List.range (s.length + 1)).any (fun k => patMatchAt ps (s.drop k))
  | .wsGap :: ps, s =>
    (List.range ((s.takeWhile isWsChar).length + 1)).any
      (fun k => patMatchAt ps (s.drop k))

/-- Unanchored match (`pattern.test(s)`): the pattern matches somewhere. -/
def patMatches (p : List PatPiece) (s : Str) : Bool :=
  (List.range (s.length + 1)).any (fun k => patMatchAt p (s.drop k))

/-- The ordered `DOC_TYPE_PATTERNS` table, most specific first; matching is
case-insensitive, realised by testing against the lower-cased filename. -/
def DOC_TYPE_PATTERNS : List (List PatPiece × DocumentType) := [
  ([.lit "grant".toList, .wsGap, .lit "desc".toList], .grant_description),
  ([.lit "grant".toList, .wsGap, .lit "proposal".toList], .grant_description),
  ([.lit "project".toList, .wsGap, .lit "desc".toList], .grant_description),
  ([.lit "midpoint".toList, .anyGap, .lit "transcript".toList],
    .midpoint_checkin_transcript),
  ([.lit "mid".toList, .anyGap, .lit "check".toList, .anyGap, .lit "in".toList,
    .anyGap, .lit "transcript".toList], .midpoint_checkin_transcript),
  ([.lit "checkin".toList, .anyGap, .lit "transcript".toList],
    .midpoint_checkin_transcript),
  ([.lit "check".toList, .anyGap, .lit "in".toList, .anyGap,
    .lit "transcript".toList], .midpoint_checkin_transcript),
  ([.lit "midpoint".toList, .anyGap, .lit "survey".toList], .midpoint_survey),
  ([.lit "mid".toList, .anyGap, .lit "survey".toList], .midpoint_survey),
  ([.lit "impact".toList, .anyGap, .lit "survey".toList], .impact_survey),
  ([.lit "annual".toList, .anyGap, .lit "survey".toList], .impact_survey),
  ([.lit "impact".toList, .anyGap, .lit "report".toList], .impact_survey),
  ([.lit "annual".toList, .anyGap, .lit "report".toList], .impact_survey),
  ([.lit "closeout".toList, .anyGap, .lit "transcript".toList],
    .closeout_transcript),
  ([.lit "close".toList, .anyGap, .lit "out".toList, .anyGap,
    .lit "transcript".toList], .closeout_transcript),
  ([.lit "closeout".toList], .closeout_transcript),
  ([.lit "close".toList, .anyGap, .lit "out".toList], .closeout_transcript),
  ([.lit "check".toList, .anyGap, .lit "in".toList],
    .midpoint_checkin_transcript),
  ([.lit "checkin".toList], .midpoint_checkin_transcript),
  ([.lit "transcript".toList], .midpoint_checkin_transcript),
  ([.lit "survey".toList], .impact_survey)]

/-- Output of the filename classifier. -/
structure ParsedFilename where
  referenceNumber : Option Str
  granteeName : Option Str
  documentType : Option DocumentType
deriving DecidableEq, Repr

/-- `parseFilename(filename)`.  The grantee-name heuristic
(`extractGranteeName`: strip extension, reference number, keyword phrases
and years, collapse separators) is taken as an explicit function
parameter: no claim depends on its internals, and every theorem below
holds for any such heuristic, in particular the one in the source. -/
def parseFilename (extractName : Str → Option Str → Option Str)
    (filename : Str) : ParsedFilename :=
  let referenceNumber := findRefNumber filename
  { referenceNumber := referenceNumber,
    documentType :=
      (DOC_TYPE_PATTERNS.find? (fun pt => patMatches pt.1 (toLowerStr filename))).map
        (fun pt => pt.2),
    granteeName := extractName filename referenceNumber }

/-! ## Identity resolver (grant-lookup.ts)

`GrantRecord` keeps the two registry fields the matching logic reads
(`reference_number`, `grantee_name`); the remaining registry fields are
copied opaquely into chunk metadata and are never read by any claim.
JavaScript number comparisons `score > bestScore` and `score >= 0.5` on
the fraction `matching / total` are carried out here on cross-multiplied
naturals: with a fixed positive total they are equivalent to
`cnt > bestCnt` and `2 * cnt >= total`. -/

structure GrantRecord where
  reference_number : Str
  grantee_name : Str
deriving DecidableEq, Repr

/-- Number of query words contained in the record name (lower-cased). -/
def countMatchingWords (queryWords : List Str) (g : GrantRecord) : Nat :=
  (queryWords.filter (fun w => strContains w (toLowerStr g.grantee_name))).length

/-- One step of the best-score loop of `lookupGrant`. -/
def wordScoreStep (queryWords : List Str) (acc : Option GrantRecord × Nat)
    (g : GrantRecord) : Option GrantRecord × Nat :=
  if countMatchingWords queryWords g > acc.2 ∧
      2 * countMatchingWords queryWords g ≥ queryWords.length then
    (some g, countMatchingWords queryWords g)
  else acc

/-- Rule 1: exact reference-number match (`if (referenceNumber)` skips the
rule for a null or empty reference number). -/
def refRule (referenceNumber : Option Str) (cache : List GrantRecord) :
    Option GrantRecord :=
  match referenceNumber with
  | some r => if r ≠ [] then cache.find? (fun g => g.reference_number == r)
              else none
  | none => none

/-- Rule 2: bidirectional substring containment of the normalized query
name against each lower-cased record name, first record wins. -/
def containmentRule (normalized : Str) (cache : List GrantRecord) :
    Option GrantRecord :=
  cache.find? (fun g =>
    strContains normalized (toLowerStr g.grantee_name) ||
    strContains (toLowerStr g.grantee_name) normalized)

/-- `lookupGrant(referenceNumber, granteeName)` over a given registry
cache, translated from the source control flow. -/
def lookupGrant (referenceNumber : Option Str) (granteeName : Option Str)
    (cache : List GrantRecord) : Option GrantRecord :=
  match refRule referenceNumber cache with
  | some g => some g
  | none =>
    match granteeName with
    | none => none
    | some nm =>
      if nm = [] then none
      else if (trimStr (toLowerStr nm)).length < 3 then none
      else
        match containmentRule (trimStr (toLowerStr nm)) cache with
        | some g => some g
        | none =>
          if ((wordsOf (trimStr (toLowerStr nm))).filter
                (fun w => w.length > 2)).length > 0 then
            (cache.foldl
              (wordScoreStep ((wordsOf (trimStr (toLowerStr nm))).filter
                (fun w => w.length > 2)))
              ((none : Option GrantRecord), 0)).1
          else none

/-- The best word-overlap count over the whole registry. -/
def specBestCount (queryWords : List Str) (cache : List GrantRecord) : Nat :=
  cache.foldr (fun g m => max (countMatchingWords queryWords g) m) 0

/-- Definition following the specification text of the claim: resolve by
(1) exact reference-number match, (2) bidirectional substring
containment of the lowercased trimmed name (rejecting names under 3
characters), (3) word-overlap scoring over query words longer than 2
characters, returning the best-scoring record only if its score is at
least one half, ties keeping the first record encountered; null when no
rule matches. -/
def lookupGrantSpec (referenceNumber : Option Str) (granteeName : Option Str)
    (cache : List GrantRecord) : Option GrantRecord :=
  match refRule referenceNumber cache with
  | some g => some g
  | none =>
    match granteeName with
    | none => none
    | some nm =>
      if nm = [] then none
      else if (trimStr (toLowerStr nm)).length < 3 then none
      else
        match containmentRule (trimStr (toLowerStr nm)) cache with
        | some g => some g
        | none =>
          if ((wordsOf (trimStr (toLowerStr nm))).filter
                (fun w => w.length > 2)).length ≠ 0 ∧
              2 * specBestCount
                ((wordsOf (trimStr (toLowerStr nm))).filter
                  (fun w => w.length > 2)) cache ≥
                ((wordsOf (trimStr (toLowerStr nm))).filter
                  (fun w => w.length > 2)).length then
            cache.find? (fun g =>
              countMatchingWords
                ((wordsOf (trimStr (toLowerStr nm))).filter
                  (fun w => w.length > 2)) g ==
              specBestCount
                ((wordsOf (trimStr (toLowerStr nm))).filter
                  (fun w => w.length > 2)) cache)
          else none

/-! ## Chunk unique ids (makeChunk and the module counter)

`makeChunk` builds `chunk_${Date.now()}_${counter}` where `counter` is a
module-level variable incremented on every call, so any two calls in one
process observe different counter values; `Date.now()` is an arbitrary
natural number.  The decimal rendering of a number is modelled by
`natDigits`. -/

/-- Fuel-driven decimal rendering; `fuel = n + 1` always suffices. -/
def natDigitsCore : Nat → Nat → Str → Str
  | 0, _, acc => acc
  | fuel + 1, n, acc =>
    if n < 10 then Char.ofNat (48 + n % 10) :: acc
    else natDigitsCore fuel (n / 10) (Char.ofNat (48 + n % 10) :: acc)

/-- Decimal rendering of a natural number (model of `${n}`). -/
def natDigits (n : Nat) : Str := natDigitsCore (n + 1) n []

/-- Full chunk metadata: `{...metadata, chunk_uid: uid}`. -/
structure ChunkMeta (α : Type) where
  chunk_uid : Str
  seg : SegChunk α
deriving DecidableEq, Repr

/-- A stored chunk: `{ chunkUid, text, metadata }`. -/
structure DocumentChunk (α : Type) where
  chunkUid : Str
  text : Str
  metadata : ChunkMeta α
deriving DecidableEq, Repr

/-- The unique id `chunk_${time}_${counter}`. -/
def makeChunkUid (time counter : Nat) : Str :=
  "chunk_".toList ++ natDigits time ++ '_' :: natDigits counter

/-- `makeChunk(text, metadata)` observed at a given time and counter
value. -/
def makeChunk {α : Type} (time counter : Nat) (seg : SegChunk α) :
    DocumentChunk α :=
  { chunkUid := makeChunkUid time counter,
    text := seg.text,
    metadata := { chunk_uid := makeChunkUid time counter, seg := seg } }

/-- Reads a digit string back as a number. -/
def digitsVal (s : Str) : Nat :=
  s.foldl (fun a c => a * 10 + (c.toNat - 48)) 0

/-! ## LLM-assisted transcript segmentation (chunkTranscriptWithClaude)

The external call chain — prompt construction, `generateText`, and
`JSON.parse` with the unchecked cast to the expected shape — is modelled
as one function `llm` from the prompt text to `Option`: `some parsed`
when the call succeeded and its output parsed into the expected
structure, `none` when the call threw or the output failed to parse
(every such failure lands in the same `catch`).  The missing-credential
check happens before the call, with JavaScript falsiness (`!apiKey`)
treating an absent and an empty key alike. -/

structure TranscriptSegment where
  topic_label : String
  heading : String
  text : Str
deriving DecidableEq, Repr

structure ClaudeTranscriptResult where
  segments : List TranscriptSegment
  summary : Str
deriving DecidableEq, Repr

/-- `mapTopicLabel(label)`: fixed mapping with default `progress`. -/
def mapTopicLabel (label : String) : SectionType :=
  if label = "progress" then .progress
  else if label = "challenges" then .challenges
  else if label = "pivots" then .pivots
  else if label = "data_measurement" then .data_measurement
  else if label = "org_changes" then .org_changes
  else if label = "future_plans" then .future_plans
  else if label = "support_requests" then .support_requests
  else if label = "notable_quotes" then .notable_quotes
  else .progress

/-- Truncation of very long transcripts before the LLM call. -/
def truncateForClaude (text : Str) : Str :=
  if text.length > 100000 then text.take 100000 ++ "\n\n[TRUNCATED]".toList
  else text

/-- `chunkTranscriptWithClaude(text, documentType, base)` with the
credential and the external call made explicit. -/
def chunkTranscriptWithClaude {α : Type} (text : Str)
    (documentType : DocumentType) (base : α) (apiKey : Option String)
    (llm : Str → Option ClaudeTranscriptResult) : List (SegChunk α) :=
  if apiKey = none ∨ apiKey = some "" then chunkTranscriptByParagraph text base
  else
    match llm (truncateForClaude text) with
    | none => chunkTranscriptByParagraph text base
    | some parsed =>
      (parsed.segments.enum.map (fun iseg =>
        { base := base, text := iseg.2.text, chunk_index := iseg.1,
          section_type := mapTopicLabel iseg.2.topic_label,
          section_heading := iseg.2.heading }))
      ++ (if parsed.summary ≠ [] then
            [{ base := base, text := parsed.summary,
               chunk_index := parsed.segments.length,
               section_type := SectionType.transcript_summary,
               section_heading :=
                 if documentType = DocumentType.closeout_transcript then
                   "Closeout Transcript Summary"
                 else "Midpoint Transcript Summary" }]
          else [])

/-! ## Metadata and document routing (chunkDocument) -/

/-- The base metadata built once per document and spread into every chunk.
The source carries about thirty registry and document fields; the model
keeps the ones some claim or invariant reads and treats the rest as
opaque copies. -/
structure BaseMeta where
  reference_number : Str
  grantee_name : Str
  document_type : DocumentType
  document_date : String
  source_file : Str
  drive_url : String
deriving DecidableEq, Repr

/-- Drive file info together with the outcomes of the external calls that
may be made while processing it (export, download, the two binary text
extractions, the vector-store delete and upsert, and the metadata query
for its stored chunks).  A `.error` value models a thrown exception /
rejected promise of that call. -/
structure DriveFile where
  id : String
  name : Str
  mimeType : String
  modifiedTime : String
  webViewLink : Option String
  exportOutcome : Except String Str
  downloadOutcome : Except String Str
  pdfOutcome : Except String Str
  docxOutcome : Except String Str
  docOutcome : Except String Str
  deleteOutcome : Except String Unit
  upsertOutcome : Except String Unit

/-- `ExtractedDocument`: file metadata, extracted text and identity. -/
structure ExtractedDocument where
  file : DriveFile
  text : Str
  documentType : DocumentType
  referenceNumber : Option Str
  granteeName : Option Str

/-- `buildBaseMetadata(doc, grant)`: the `??`-chains of the source. -/
def buildBaseMetadata (doc : ExtractedDocument) (grant : Option GrantRecord) :
    BaseMeta :=
  { reference_number :=
      (doc.referenceNumber <|> grant.map (fun g => g.reference_number)).getD [],
    grantee_name :=
      (doc.granteeName <|> grant.map (fun g => g.grantee_name)).getD [],
    document_type := doc.documentType,
    document_date := doc.file.modifiedTime,
    source_file := doc.file.name,
    drive_url := doc.file.webViewLink.getD "" }

/-- The three segmentation strategies no claim examines (heading-based
grant descriptions and the two question-splitting survey strategies),
abstracted as arbitrary functions from text and base metadata to chunks;
every theorem below holds for any such functions, in particular the ones
in the source. -/
structure SurveyChunkers where
  grantDescription : Str → BaseMeta → List (SegChunk BaseMeta)
  impactSurvey : Str → BaseMeta → List (SegChunk BaseMeta)
  midpointSurvey : Str → BaseMeta → List (SegChunk BaseMeta)

/-- `chunkDocument(doc, grant, options)`: route to the strategy for the
document type. -/
def chunkDocument (ck : SurveyChunkers) (apiKey : Option String)
    (llm : Str → Option ClaudeTranscriptResult) (doc : ExtractedDocument)
    (grant : Option GrantRecord) (useClaudeChunking : Bool) :
    List (SegChunk BaseMeta) :=
  let base := buildBaseMetadata doc grant
  match doc.documentType with
  | .grant_description => ck.grantDescription doc.text base
  | .midpoint_checkin_transcript =>
    if useClaudeChunking then
      chunkTranscriptWithClaude doc.text doc.documentType base apiKey llm
    else chunkTranscriptByParagraph doc.text base
  | .closeout_transcript =>
    if useClaudeChunking then
      chunkTranscriptWithClaude doc.text doc.documentType base apiKey llm
    else chunkTranscriptByParagraph doc.text base
  | .midpoint_survey => ck.midpointSurvey doc.text base
  | .impact_survey => ck.impactSurvey doc.text base

/-! ## Text extractor (text-extraction.ts) -/

/-- MIME type constants used by the dispatch. -/
def mimeGoogleDoc : String := "application/vnd.google-apps.document"

def mimePdf : String := "application/pdf"

def mimeDocx : String :=
  "application/vnd.openxmlformats-officedocument.wordprocessingml.document"

def mimeDoc : String := "application/msword"

def mimeSheet : String := "application/vnd.google-apps.spreadsheet"

def mimeSlides : String := "application/vnd.google-apps.presentation"

/-- `extractText(file)`: dispatch on the MIME type.  Google Docs are
exported directly; every other type first downloads the raw bytes
(`downloadFile` runs before the type dispatch), then extracts.  Legacy
`.doc` extraction failures are caught and yield empty text; spreadsheet,
presentation, image and unrecognised types yield empty text after a
logged warning. -/
def extractText (f : DriveFile) : Except String Str :=
  if f.mimeType = mimeGoogleDoc then f.exportOutcome
  else
    match f.downloadOutcome with
    | .error e => .error e
    | .ok buffer =>
      if f.mimeType = mimePdf then f.pdfOutcome
      else if f.mimeType = mimeDocx then f.docxOutcome
      else if f.mimeType = mimeDoc then
        match f.docOutcome with
        | .ok t => .ok t
        | .error _ => .ok []
      else if f.mimeType = "text/plain" ∨ f.mimeType = "text/csv" then
        .ok buffer
      else if f.mimeType = mimeSheet then .ok []
      else if f.mimeType = mimeSlides then .ok []
      else if f.mimeType.startsWith "image/" then .ok []
      else .ok []

/-! ## Sync state tracker (drive-sync-state.ts)

Store queries are modelled by their response: `none` is a query that
threw (caught inside `getChunksByFileId` and `getLatestSyncGeneration`),
`some matches` a successful response listing the matches in the order
the store returned them.  A match carries the metadata fields the
tracker reads. -/

structure StoredMatch where
  id : String
  drive_file_modified : Option String
  sync_generation : Option Nat
deriving DecidableEq, Repr

/-- `getChunksByFileId(driveFileId)`: returns the matches of a successful
query and `[]` when the query failed (the catch block). -/
def getChunksByFileId (resp : Option (List StoredMatch)) : List StoredMatch :=
  resp.getD []

/-- `getLatestSyncGeneration()`: `topK: 1` query filtered on chunks that
carry a `sync_generation`; returns the first (only) match's generation,
`0` when there is no match, no recorded value (`generation || 0`), or
the query failed. -/
def getLatestSyncGeneration (resp : Option (List StoredMatch)) : Nat :=
  match resp with
  | none => 0
  | some [] => 0
  | some (m :: _) => m.sync_generation.getD 0

/-- What a valid store response to the generation query can be: at most
`topK = 1` matches, each drawn from the store and carrying a
`sync_generation` (the `$exists` filter).  The similarity ranking
against the dummy zero vector imposes no further constraint, so any
single filtered chunk is a possible response. -/
def validGenQueryResponse (store resp : List StoredMatch) : Prop :=
  resp.length ≤ 1 ∧ ∀ m ∈ resp, m ∈ store ∧ m.sync_generation.isSome

/-- The maximum recorded sync generation across all chunks of the store —
what the specification says `latestGeneration()` returns. -/
def maxSyncGeneration (store : List StoredMatch) : Nat :=
  store.foldr (fun m acc => max (m.sync_generation.getD 0) acc) 0

/-- `shouldSkipFile(driveFileId, driveFileModified)`: false when the file
has no chunks (or the query failed, which yields `[]`), false when the
first chunk's recorded timestamp is absent or empty (JavaScript
falsiness of `storedModified`), else string equality of the first
chunk's recorded timestamp with the given one. -/
def shouldSkipFile (resp : Option (List StoredMatch))
    (driveFileModified : String) : Bool :=
  match getChunksByFileId resp with
  | [] => false
  | m :: _ =>
    match m.drive_file_modified with
    | none => false
    | some stored => if stored = "" then false else stored == driveFileModified

/-! ## Ingestion orchestrator (runIngestion / processFile) -/

structure IngestionOptions where
  folderIds : Option (List String)
  dryRun : Bool
  forceReprocess : Bool
  useClaudeChunking : Bool

structure IngestionResult where
  totalFiles : Nat
  processedFiles : Nat
  skippedFiles : Nat
  totalChunks : Nat
  errors : List (Str × String)
  unmatchedGrants : List (Str × Option Str)
deriving DecidableEq

/-- An enriched chunk as stored by the drive sync (sync-tracking fields
added on top of the segment metadata). -/
structure EnrichedChunk where
  seg : SegChunk BaseMeta
  drive_file_id : String
  drive_file_modified : String
  sync_generation : Nat
deriving DecidableEq

/-- A mutating call issued to the vector store. -/
inductive StoreOp
  | deleteBySourceFile (name : Str)
  | upsertChunks (chunks : List (SegChunk BaseMeta))
  | deleteByFileId (id : String)
  | upsertEnriched (chunks : List EnrichedChunk)
deriving DecidableEq

/-- One configured drive folder together with the outcome of listing it. -/
structure FolderSpec where
  folderId : String
  label : Str
  documentType : DocumentType
  listing : Except String (List DriveFile)

/-- The run environment: configured folders, the registry fetch outcome,
the LLM credential and call, and the two abstracted heuristics. -/
structure IngestEnv where
  folders : List FolderSpec
  registry : Except String (List GrantRecord)
  apiKey : Option String
  llm : Str → Option ClaudeTranscriptResult
  extractName : Str → Option Str → Option Str
  surveyChunkers : SurveyChunkers

/-- `processFile(file, folder, options, result)`: returns the updated
result, `some message` when the step threw (to be recorded by the
caller), and the store calls issued.  Mutations made before a throw
(the unmatched-grant entry) are kept, as in the source. -/
def processFile (env : IngestEnv) (opts : IngestionOptions)
    (folderDocType : DocumentType) (file : DriveFile) (r : IngestionResult) :
    IngestionResult × Option String × List StoreOp :=
  match extractText file with
  | .error e => (r, some e, [])
  | .ok text =>
    if text = [] ∨ (trimStr text).length < 50 then
      ({ r with skippedFiles := r.skippedFiles + 1 }, none, [])
    else
      match env.registry with
      | .error e => (r, some e, [])
      | .ok regs =>
        let parsed := parseFilename env.extractName file.name
        let documentType := parsed.documentType.getD folderDocType
        let grant := lookupGrant parsed.referenceNumber parsed.granteeName regs
        let r1 := match grant with
          | some _ => r
          | none => { r with unmatchedGrants :=
              r.unmatchedGrants ++ [(file.name, parsed.referenceNumber)] }
        let doc : ExtractedDocument :=
          { file := file, text := text, documentType := documentType,
            referenceNumber :=
              parsed.referenceNumber <|> grant.map (fun g => g.reference_number),
            granteeName :=
              parsed.granteeName <|> grant.map (fun g => g.grantee_name) }
        let chunks := chunkDocument env.surveyChunkers env.apiKey env.llm doc
          grant opts.useClaudeChunking
        if opts.dryRun then
          ({ r1 with
              processedFiles := r1.processedFiles + 1
              totalChunks := r1.totalChunks + chunks.length }, none, [])
        else if opts.forceReprocess then
          match file.deleteOutcome with
          | .error e => (r1, some e, [StoreOp.deleteBySourceFile file.name])
          | .ok _ =>
            match file.upsertOutcome with
            | .error e => (r1, some e,
                [StoreOp.deleteBySourceFile file.name, StoreOp.upsertChunks chunks])
            | .ok _ =>
              ({ r1 with
                  processedFiles := r1.processedFiles + 1
                  totalChunks := r1.totalChunks + chunks.length }, none,
               [StoreOp.deleteBySourceFile file.name, StoreOp.upsertChunks chunks])
        else
          match file.upsertOutcome with
          | .error e => (r1, some e, [StoreOp.upsertChunks chunks])
          | .ok _ =>
            ({ r1 with
                processedFiles := r1.processedFiles + 1
                totalChunks := r1.totalChunks + chunks.length }, none,
             [StoreOp.upsertChunks chunks])

/-- The per-folder file loop of `runIngestion`: a thrown `processFile`
is caught and recorded as `{file, error}`. -/
def ingestFilesLoop (env : IngestEnv) (opts : IngestionOptions)
    (folderDocType : DocumentType) :
    List DriveFile → IngestionResult → List StoreOp →
    IngestionResult × List StoreOp
  | [], r, ops => (r, ops)
  | f :: rest, r, ops =>
    match processFile env opts folderDocType f r with
    | (r', none, fops) => ingestFilesLoop env opts folderDocType rest r' (ops ++ fops)
    | (r', some e, fops) =>
      ingestFilesLoop env opts folderDocType rest
        { r' with errors := r'.errors ++ [(f.name, e)] } (ops ++ fops)

/-- The folder loop of `runIngestion`: a failed listing is recorded as an
error keyed by the folder label and the folder contributes no files. -/
def ingestFoldersLoop (env : IngestEnv) (opts : IngestionOptions) :
    List FolderSpec → IngestionResult → List StoreOp →
    IngestionResult × List StoreOp
  | [], r, ops => (r, ops)
  | folder :: rest, r, ops =>
    match folder.listing with
    | .error msg =>
      ingestFoldersLoop env opts rest
        { r with errors :=
            r.errors ++ [(folder.label, "Folder listing failed: " ++ msg)] } ops
    | .ok files =>
      let st := ingestFilesLoop env opts folder.documentType files
        { r with totalFiles := r.totalFiles + files.length } ops
      ingestFoldersLoop env opts rest st.1 st.2

def emptyIngestionResult : IngestionResult :=
  { totalFiles := 0, processedFiles := 0, skippedFiles := 0, totalChunks := 0,
    errors := [], unmatchedGrants := [] }

/-- The folders a run processes (`options.folderIds` filter). -/
def selectedFolders (env : IngestEnv) (opts : IngestionOptions) :
    List FolderSpec :=
  match opts.folderIds with
  | none => env.folders
  | some ids => env.folders.filter (fun f => ids.contains f.folderId)

/-- `runIngestion(options)`: the whole run, returning the aggregate result
and the store calls issued. -/
def runIngestion (env : IngestEnv) (opts : IngestionOptions) :
    IngestionResult × List StoreOp :=
  ingestFoldersLoop env opts (selectedFolders env opts) emptyIngestionResult []

/-! ## Drive sync (syncDriveFiles / processAndStoreFile) -/

structure SyncResult where
  processed : Nat
  new : Nat
  updated : Nat
  skipped : Nat
  errors : List String
deriving DecidableEq

/-- The sync-supported MIME types. -/
def SUPPORTED_MIME_TYPES : List String :=
  [mimePdf, mimeDocx, mimeDoc,
   "application/vnd.openxmlformats-officedocument.presentationml.presentation",
   "text/plain", "text/csv", mimeGoogleDoc]

def isSupportedFile (mimeType : String) : Bool :=
  SUPPORTED_MIME_TYPES.contains mimeType

/-- Lookup in the `Map` built from the grants list; for duplicate
reference numbers `new Map(...)` keeps the last entry. -/
def grantMapGet (grants : List GrantRecord) (ref : Str) : Option GrantRecord :=
  grants.reverse.find? (fun g => g.reference_number == ref)

/-- A drive file together with the store response to the
chunks-for-this-file-id query (`none` models a query that threw). -/
structure SyncFile where
  file : DriveFile
  queryResp : Option (List StoredMatch)

/-- `processAndStoreFile(file, grant, syncGen, defaultDocumentType)`:
extract, chunk (Claude chunking off), enrich with the sync-tracking
fields, delete stale chunks when the file already has some, upsert.
`now` is the ISO timestamp used when the file has no modified time. -/
def processAndStoreFile (env : IngestEnv) (now : String) (sf : SyncFile)
    (grant : GrantRecord) (syncGen : Nat) (defaultDocType : DocumentType) :
    Except String Unit × List StoreOp :=
  match extractText sf.file with
  | .error e => (.error e, [])
  | .ok text =>
    let parsed := parseFilename env.extractName sf.file.name
    let docType := parsed.documentType.getD defaultDocType
    let extractedDoc : ExtractedDocument :=
      { file := sf.file, text := text, documentType := docType,
        referenceNumber := parsed.referenceNumber,
        granteeName := some grant.grantee_name }
    let chunks := chunkDocument env.surveyChunkers env.apiKey env.llm
      extractedDoc (some grant) false
    let fileTimestamp :=
      if sf.file.modifiedTime = "" then now else sf.file.modifiedTime
    let enriched := chunks.map (fun c =>
      { seg := c, drive_file_id := sf.file.id,
        drive_file_modified := fileTimestamp,
        sync_generation := syncGen : EnrichedChunk })
    if (getChunksByFileId sf.queryResp).isEmpty then
      match sf.file.upsertOutcome with
      | .error e => (.error e, [StoreOp.upsertEnriched enriched])
      | .ok _ => (.ok (), [StoreOp.upsertEnriched enriched])
    else
      match sf.file.deleteOutcome with
      | .error e => (.error e, [StoreOp.deleteByFileId sf.file.id])
      | .ok _ =>
        match sf.file.upsertOutcome with
        | .error e => (.error e,
            [StoreOp.deleteByFileId sf.file.id, StoreOp.upsertEnriched enriched])
        | .ok _ => (.ok (),
            [StoreOp.deleteByFileId sf.file.id, StoreOp.upsertEnriched enriched])

/-- The per-file body of the `syncDriveFiles` folder loop: skip
unsupported types, require a parsed reference number and a grant in the
map, consult `shouldSkipFile`, then process and store, counting the
outcome. -/
def syncProcessFile (env : IngestEnv) (grants : List GrantRecord)
    (nextGen : Nat) (now : String) (folderDocType : DocumentType)
    (sf : SyncFile) (r : SyncResult) : SyncResult × List StoreOp :=
  if !isSupportedFile sf.file.mimeType then (r, [])
  else
    match (parseFilename env.extractName sf.file.name).referenceNumber with
    | none =>
      ({ r with errors := r.errors ++
          [s!"File {String.mk sf.file.name}: No reference number found in filename"] }, [])
    | some ref =>
      match grantMapGet grants ref with
      | none =>
        ({ r with errors := r.errors ++
            [s!"File {String.mk sf.file.name}: Grant {String.mk ref} not found in Sheets"] }, [])
      | some grant =>
        if shouldSkipFile sf.queryResp
            (if sf.file.modifiedTime = "" then now else sf.file.modifiedTime) then
          ({ r with skipped := r.skipped + 1 }, [])
        else
          match processAndStoreFile env now sf grant nextGen folderDocType with
          | (.ok _, ops) =>
            if !(getChunksByFileId sf.queryResp).isEmpty then
              ({ r with
                  processed := r.processed + 1
                  updated := r.updated + 1 }, ops)
            else
              ({ r with
                  processed := r.processed + 1
                  new := r.new + 1 }, ops)
          | (.error e, ops) =>
            ({ r with errors := r.errors ++
                [s!"File {String.mk sf.file.name}: {e}"] }, ops)

/-- A minimal concrete environment for closed instantiations. -/
def demoEnv : IngestEnv :=
  { folders := [], registry := .ok [], apiKey := none,
    llm := fun _ => none, extractName := fun _ _ => none,
    surveyChunkers :=
      { grantDescription := fun _ _ => [], impactSurvey := fun _ _ => [],
        midpointSurvey := fun _ _ => [] } }

/-- A concrete drive file whose store chunks carry its own timestamp. -/
def demoSyncFile : SyncFile :=
  { file :=
      { id := "id1", name := "2025067_Acme_GrantDesc.pdf".toList,
        mimeType := "application/pdf",
        modifiedTime := "2024-01-01T00:00:00Z", webViewLink := none,
        exportOutcome := .ok [], downloadOutcome := .ok [],
        pdfOutcome := .ok [], docxOutcome := .ok [], docOutcome := .ok [],
        deleteOutcome := .ok (), upsertOutcome := .ok () },
    queryResp := some
      [⟨"c1", some "2024-01-01T00:00:00Z", some 1⟩] }

/-- The registry record of the demo file. -/
def demoGrant : GrantRecord :=
  { reference_number := "2025067".toList, grantee_name := "Acme".toList }

/-- A one-folder, one-file environment for the dry-run instantiation. -/
def demoFolder : FolderSpec :=
  { folderId := "fo1", label := "Demo".toList,
    documentType := DocumentType.grant_description,
    listing := .ok [demoSyncFile.file] }

def demoIngestEnv : IngestEnv :=
  { demoEnv with folders := [demoFolder], registry := .ok [demoGrant] }

def demoDryOpts : IngestionOptions :=
  { folderIds := none, dryRun := true, forceReprocess := false,
    useClaudeChunking := false }

/-- Did this folder's listing fail? -/
def listingFailed (folder : FolderSpec) : Bool :=
  match folder.listing with
  | .error _ => true
  | .ok _ => false

/-- Number of files a folder contributes to `totalFiles`. -/
def okFileCount (folder : FolderSpec) : Nat :=
  match folder.listing with
  | .ok files => files.length
  | .error _ => 0

/-- A folder whose listing fails, for the accounting instantiation. -/
def demoBrokenFolder : FolderSpec :=
  { folderId := "fo2", label := "Broken".toList,
    documentType := DocumentType.impact_survey,
    listing := .error "quota exceeded" }

/-! ## Sanity checks and theorems -/

example : splitParas "a\n\nb".toList = ["a".toList, "b".toList] := by decide

example : splitParas "a\nb".toList = ["a\nb".toList] := by decide

example : splitParas "".toList = [[]] := by decide

example : splitParas "a\n\n\n\nb\n\n".toList
    = ["a".toList, "b".toList, []] := by decide

example : strContains "solar sister".toList "solar sisterhood program".toList = true := by
  decide

example : strContains "xyz".toList "solar sister".toList = false := by decide

example : wordsOf "solar  sisterhood program".toList
    = ["solar".toList, "sisterhood".toList, "program".toList] := by decide

example :
    (chunkBySize "aaaaa\n\nbbbbb".toList 10 ()).map (fun c => c.text.length)
      = [12] := by decide

example :
    (chunkBySize "aaaaa\n\nbbbbb".toList 5 ()).map (fun c => c.text)
      = ["aaaaa".toList, "bbbbb".toList] := by decide

theorem accumParas_join (maxChars : Nat) (paras : List Str) :
    ∀ (cur : List Str) (curLen : Nat),
      (accumParas maxChars paras cur curLen).flatten = cur ++ paras := by
  induction paras with
  | nil =>
    intro cur curLen
    simp only [accumParas]
    by_cases h : cur.isEmpty
    · simp [h, List.isEmpty_iff.mp h]
    · simp [h]
  | cons p rest ih =>
    intro cur curLen
    simp only [accumParas]
    by_cases h : curLen + p.length > maxChars ∧ cur ≠ []
    · simp [h, ih]
    · simp [h, ih]

theorem accumParas_groups (maxChars : Nat) (paras : List Str) :
    ∀ (cur : List Str) (curLen : Nat),
      curLen = sumLen cur →
      (2 ≤ cur.length → curLen ≤ maxChars) →
      ∀ g ∈ accumParas maxChars paras cur curLen,
        g ≠ [] ∧ (2 ≤ g.length → sumLen g ≤ maxChars) := by
  induction paras with
  | nil =>
    intro cur curLen hlen hbound g hg
    simp only [accumParas] at hg
    by_cases h : cur.isEmpty
    · simp [h] at hg
    · simp [h] at hg
      subst hg
      refine ⟨fun hnil => h (by simp [hnil]), fun h2 => ?_⟩
      exact hlen ▸ hbound h2
  | cons p rest ih =>
    intro cur curLen hlen hbound g hg
    simp only [accumParas] at hg
    by_cases h : curLen + p.length > maxChars ∧ cur ≠ []
    · rw [if_pos h] at hg
      rcases List.mem_cons.mp hg with hg | hg
      · subst hg
        exact ⟨h.2, fun h2 => hlen ▸ hbound h2⟩
      · refine ih [p] p.length (by simp [sumLen]) (by simp) g hg
    · rw [if_neg h] at hg
      refine ih (cur ++ [p]) (curLen + p.length) ?_ ?_ g hg
      · simp [sumLen, hlen]
      · intro h2
        rcases Decidable.not_and_iff_or_not.mp h with h1 | h1
        · omega
        · exfalso
          have : cur = [] := by simpa using h1
          subst this
          simp at h2

theorem accumParas_ne_nil (maxChars : Nat) (paras : List Str) :
    ∀ (cur : List Str) (curLen : Nat), cur ≠ [] ∨ paras ≠ [] →
      accumParas maxChars paras cur curLen ≠ [] := by
  induction paras with
  | nil =>
    intro cur curLen h
    have hcur : cur ≠ [] := by tauto
    simp only [accumParas]
    simp [hcur]
  | cons p rest ih =>
    intro cur curLen _
    simp only [accumParas]
    by_cases h : curLen + p.length > maxChars ∧ cur ≠ []
    · simp [h]
    · rw [if_neg h]
      exact ih (cur ++ [p]) (curLen + p.length) (Or.inl (by simp))

theorem joinParas_length :
    ∀ g : List Str, g ≠ [] →
      (joinParas g).length = sumLen g + 2 * (g.length - 1) := by
  intro g
  induction g with
  | nil => intro h; exact absurd rfl h
  | cons p ps ih =>
    intro _
    cases ps with
    | nil => simp [joinParas, sumLen]
    | cons q qs =>
      have h2 := ih (by simp)
      simp only [joinParas] at h2 ⊢
      simp only [List.length_append, List.length_cons, sumLen, List.map_cons,
        List.sum_cons] at h2 ⊢
      omega

theorem enum_map_snd_comp {α β : Type} (l : List α) (g : α → β) :
    l.enum.map (fun p => g p.2) = l.map g := by
  have : (fun p : Nat × α => g p.2) = g ∘ Prod.snd := rfl
  rw [this, ← List.map_map, List.enum_map_snd]

/-- C3, counterexample to the claim as stated: with budget 10 and text
`"aaaaa\n\nbbbbb"`, `chunkBySize` produces exactly one chunk and its text
has length 12, exceeding the budget, although every paragraph of the
input has length 5 and so no single paragraph alone exceeds the budget.
The two-character `"\n\n"` joiners are not counted by the accumulation
check, so a multi-paragraph chunk can exceed the stated bound. -/
theorem chunk_size_budget_counterexample :
    ((chunkBySize "aaaaa\n\nbbbbb".toList 10 ()).map (fun c => c.text.length)
        = [12])
    ∧ 10 < 12
    ∧ (∀ p ∈ splitParas "aaaaa\n\nbbbbb".toList, p.length ≤ 10) := by decide

/-- C3 (amended): every chunk produced by a paragraph-accumulating strategy
(`chunkBySize` with its budget, `chunkTranscriptByParagraph` with budget
1500) consists of one or more whole consecutive paragraphs — the groups
concatenate back to the full filtered paragraph list, so no paragraph is
ever split mid-paragraph.  A chunk holding two or more paragraphs has
total paragraph length at most the budget, hence text length at most the
budget plus two characters per inserted blank-line separator; a chunk
holding a single paragraph may exceed the budget (that paragraph stands
alone verbatim). -/
theorem chunk_size_soft_budget {α : Type} (text : Str) (maxChars : Nat)
    (base : α) :
    (sizeGroups maxChars text).flatten
        = (splitParas text).filter (fun p => (trimStr p).length > 0)
    ∧ (transcriptGroups text).flatten
        = (splitParas text).filter (fun p => (trimStr p).length > 20)
    ∧ (∀ g ∈ sizeGroups maxChars text,
        g ≠ [] ∧ (2 ≤ g.length →
          sumLen g ≤ maxChars ∧
          (joinParas g).length ≤ maxChars + 2 * (g.length - 1)))
    ∧ (∀ g ∈ transcriptGroups text,
        g ≠ [] ∧ (2 ≤ g.length →
          sumLen g ≤ 1500 ∧
          (joinParas g).length ≤ 1500 + 2 * (g.length - 1)))
    ∧ ((splitParas text).filter (fun p => (trimStr p).length > 0) ≠ [] →
        (chunkBySize text maxChars base).map (fun c => c.text)
          = (sizeGroups maxChars text).map joinParas)
    ∧ (chunkTranscriptByParagraph text base).map (fun c => c.text)
        = (transcriptGroups text).map joinParas := by
  refine ⟨accumParas_join _ _ _ _, accumParas_join _ _ _ _, ?_, ?_, ?_, ?_⟩
  · intro g hg
    have h := accumParas_groups maxChars _ [] 0 rfl (by simp) g hg
    refine ⟨h.1, fun h2 => ⟨h.2 h2, ?_⟩⟩
    rw [joinParas_length g h.1]
    have := h.2 h2
    omega
  · intro g hg
    have h := accumParas_groups 1500 _ [] 0 rfl (by simp) g hg
    refine ⟨h.1, fun h2 => ⟨h.2 h2, ?_⟩⟩
    rw [joinParas_length g h.1]
    have := h.2 h2
    omega
  · intro hne
    have hgne : sizeGroups maxChars text ≠ [] :=
      accumParas_ne_nil maxChars _ [] 0 (Or.inr hne)
    simp only [chunkBySize]
    rw [if_neg]
    · rw [List.map_map]
      exact enum_map_snd_comp _ joinParas
    · intro hcond
      have h1 := List.isEmpty_iff.mp hcond.1
      have h2 := List.map_eq_nil_iff.mp h1
      exact hgne (by simpa using congrArg List.length h2)
  · simp only [chunkTranscriptByParagraph]
    rw [List.map_map]
    exact enum_map_snd_comp _ joinParas

/-- Closed instantiation of `chunk_size_soft_budget`, discharging its
non-empty-paragraph-list hypothesis on a concrete input. -/
theorem chunk_size_soft_budget_witness :
    (chunkBySize "aaaaa\n\nbbbbb".toList 100 ()).map (fun c => c.text)
      = (sizeGroups 100 "aaaaa\n\nbbbbb".toList).map joinParas :=
  (chunk_size_soft_budget "aaaaa\n\nbbbbb".toList 100 ()).2.2.2.2.1 (by decide)

example : findRefNumber "2025067_Acme_GrantDesc.pdf".toList
    = some "2025067".toList := by decide

example : findRefNumber "Acme_2023001A_Transcript".toList
    = some "2023001A".toList := by decide

example : findRefNumber "Acme_12025067".toList = none := by decide

example : findRefNumber "Acme_2025067A5_x".toList
    = some "2025067".toList := by decide

example : findRefNumber "20252025067".toList = none := by decide

example : findRefNumber "no ref here 2019".toList = none := by decide

theorem coreMatch_eq (u : Str) :
    coreMatch u = (if tokenOk8 u then some (u.take 8)
      else if tokenOk7 u then some (u.take 7) else none) := by
  rcases u with _ | ⟨c1, _ | ⟨c2, _ | ⟨c3, _ | ⟨c4, _ | ⟨c5, _ | ⟨c6, _ | ⟨c7, rest⟩⟩⟩⟩⟩⟩⟩
  · simp [coreMatch, tokenOk7, tokenOk8]
  · simp [coreMatch, tokenOk7, tokenOk8]
  · simp [coreMatch, tokenOk7, tokenOk8]
  · simp [coreMatch, tokenOk7, tokenOk8]
  · simp [coreMatch, tokenOk7, tokenOk8]
  · simp [coreMatch, tokenOk7, tokenOk8]
  · simp [coreMatch, tokenOk7, tokenOk8]
  · by_cases hp : pat7 c1 c2 c3 c4 c5 c6 c7
    · cases rest with
      | nil => simp [coreMatch, tokenOk7, tokenOk8, hp, nonDigitBoundary]
      | cons r1 rest2 =>
        by_cases h8 : r1.isUpper && nonDigitBoundary rest2
        · simp [coreMatch, tokenOk8, hp, h8]
        · by_cases hd : r1.isDigit
          · simp [coreMatch, tokenOk7, tokenOk8, hp, h8, hd, nonDigitBoundary]
          · simp [coreMatch, tokenOk7, tokenOk8, hp, h8, hd, nonDigitBoundary]
    · cases rest with
      | nil => simp [coreMatch, tokenOk7, tokenOk8, hp]
      | cons r1 rest2 => simp [coreMatch, tokenOk7, tokenOk8, hp]

theorem findSomeCongr {α β : Type} (l : List α) (f g : α → Option β)
    (h : ∀ x ∈ l, f x = g x) : l.findSome? f = l.findSome? g := by
  induction l with
  | nil => rfl
  | cons a as ih =>
    rw [List.findSome?_cons, List.findSome?_cons, h a (by simp)]
    cases g a with
    | none => exact ih (fun x hx => h x (by simp [hx]))
    | some b => rfl

theorem scanRef_eq_specSuffix (u : Str) :
    ∀ prev, scanRef u prev = specSuffix u prev := by
  induction u with
  | nil =>
    intro prev
    rfl
  | cons c rest ih =>
    intro prev
    have hstep : specSuffix (c :: rest) prev
        = match (if prev then none else coreMatch (c :: rest)) with
          | some t => some t
          | none => specSuffix rest c.isDigit := by
      rw [specSuffix, List.length_cons, List.range_succ_eq_map,
        List.findSome?_cons, List.findSome?_map]
      have hf0 :
          (if tokenOk8 ((c :: rest).drop 0) &&
              (if (0 : Nat) = 0 then !prev else nonDigitAt (c :: rest) (0 - 1))
            then some (((c :: rest).drop 0).take 8)
            else if tokenOk7 ((c :: rest).drop 0) &&
              (if (0 : Nat) = 0 then !prev else nonDigitAt (c :: rest) (0 - 1))
            then some (((c :: rest).drop 0).take 7)
            else none)
          = (if prev then none else coreMatch (c :: rest)) := by
        cases prev
        · simp [coreMatch_eq]
        · simp
      rw [hf0]
      cases hd : (if prev then none else coreMatch (c :: rest)) with
      | some t => rfl
      | none =>
        show (List.range (rest.length + 1)).findSome? _ = specSuffix rest c.isDigit
        rw [specSuffix]
        refine findSomeCongr _ _ _ (fun k hk => ?_)
        show (if tokenOk8 ((c :: rest).drop (Nat.succ k)) &&
              (if Nat.succ k = 0 then !prev else nonDigitAt (c :: rest) (Nat.succ k - 1))
            then some (((c :: rest).drop (Nat.succ k)).take 8)
            else if tokenOk7 ((c :: rest).drop (Nat.succ k)) &&
              (if Nat.succ k = 0 then !prev else nonDigitAt (c :: rest) (Nat.succ k - 1))
            then some (((c :: rest).drop (Nat.succ k)).take 7)
            else none) = _
        have hb : nonDigitAt (c :: rest) k
            = (if k = 0 then !c.isDigit else nonDigitAt rest (k - 1)) := by
          cases k with
          | zero => simp [nonDigitAt]
          | succ j => simp [nonDigitAt]
        simp only [List.drop_succ_cons, Nat.succ_ne_zero, if_false,
          Nat.succ_sub_one, hb]
    rw [scanRef, hstep, ih c.isDigit]

theorem specFindRef_eq (s : Str) : specFindRef s = specSuffix s false := by
  rw [specFindRef, specSuffix]
  refine findSomeCongr _ _ _ (fun k hk => ?_)
  simp

example :
    (parseFilename (fun _ _ => none) "2025001_Org_Annual_Impact_Report.pdf".toList).documentType
      = some DocumentType.impact_survey := by decide

example :
    (parseFilename (fun _ _ => none) "Acme_MidCheckInTranscript_2024.docx".toList).documentType
      = some DocumentType.midpoint_checkin_transcript := by decide

example :
    (parseFilename (fun _ _ => none) "Acme_GrantDescription.pdf".toList).documentType
      = some DocumentType.grant_description := by decide

example :
    (parseFilename (fun _ _ => none) "notes.txt".toList).documentType = none := by decide

/-- C5: for every filename, the reference number extracted by
`parseFilename` is exactly the first substring matching
`20[2-3]\d{4}` with an optional trailing uppercase letter and a
non-digit character or string boundary immediately before and after
(`specFindRef`), and is `none` when no such substring exists. -/
theorem parseFilename_reference_number
    (extractName : Str → Option Str → Option Str) (filename : Str) :
    (parseFilename extractName filename).referenceNumber = specFindRef filename
    ∧ findRefNumber filename = specFindRef filename := by
  have h : findRefNumber filename = specFindRef filename := by
    rw [findRefNumber, scanRef_eq_specSuffix, specFindRef_eq]
  exact ⟨h, h⟩

theorem wordScoreFold_eq (queryWords : List Str) :
    ∀ (cache : List GrantRecord) (accM : Option GrantRecord) (accC : Nat),
      (cache.foldl (wordScoreStep queryWords) (accM, accC)).1
        = if specBestCount queryWords cache > accC ∧
              2 * specBestCount queryWords cache ≥ queryWords.length then
            cache.find? (fun g =>
              countMatchingWords queryWords g == specBestCount queryWords cache)
          else accM := by
  intro cache
  induction cache with
  | nil =>
    intro accM accC
    simp [specBestCount]
  | cons g rest ih =>
    intro accM accC
    have hM : specBestCount queryWords (g :: rest)
        = max (countMatchingWords queryWords g) (specBestCount queryWords rest) := rfl
    rw [List.foldl_cons]
    by_cases hA : countMatchingWords queryWords g > accC ∧
        2 * countMatchingWords queryWords g ≥ queryWords.length
    · rw [show wordScoreStep queryWords (accM, accC) g
          = (some g, countMatchingWords queryWords g) from if_pos hA]
      rw [ih (some g) (countMatchingWords queryWords g)]
      by_cases hM' : specBestCount queryWords rest > countMatchingWords queryWords g
      · have h2M' : 2 * specBestCount queryWords rest ≥ queryWords.length := by omega
        have hMr : max (countMatchingWords queryWords g)
            (specBestCount queryWords rest) = specBestCount queryWords rest := by
          omega
        rw [if_pos ⟨hM', h2M'⟩, hM, hMr, if_pos (by constructor <;> omega)]
        rw [List.find?_cons_of_neg]
        simp only [beq_iff_eq]
        omega
      · rw [if_neg (by omega)]
        have hMc : max (countMatchingWords queryWords g)
            (specBestCount queryWords rest) = countMatchingWords queryWords g := by
          omega
        rw [hM, hMc, if_pos ⟨hA.1, hA.2⟩]
        rw [List.find?_cons_of_pos]
        simp
    · rw [show wordScoreStep queryWords (accM, accC) g = (accM, accC) from if_neg hA]
      rw [ih accM accC]
      by_cases hB : specBestCount queryWords rest > accC ∧
          2 * specBestCount queryWords rest ≥ queryWords.length
      · have hlt : countMatchingWords queryWords g < specBestCount queryWords rest := by
          omega
        rw [if_pos hB, hM, if_pos (by constructor <;> omega)]
        have hMr : max (countMatchingWords queryWords g)
            (specBestCount queryWords rest) = specBestCount queryWords rest := by
          omega
        rw [hMr, List.find?_cons_of_neg]
        simp only [beq_iff_eq]
        omega
      · rw [if_neg hB, hM, if_neg]
        omega

/-- C4: `lookupGrant` resolves exactly as specified — rule 1 (exact
reference-number match), then rule 2 (bidirectional containment of the
lowercased trimmed name, names under 3 characters rejected), then rule 3
(word overlap over query words longer than 2 characters, best score wins
only when at least one half, ties keep the first record), else null —
and on the registry ["Solar Sister", "Toolkit Africa"] the query name
"solar sisterhood program" resolves to the Solar Sister record while
"xyz" resolves to null. -/
theorem lookupGrant_resolution_order (referenceNumber granteeName : Option Str)
    (cache : List GrantRecord) :
    lookupGrant referenceNumber granteeName cache
      = lookupGrantSpec referenceNumber granteeName cache
    ∧ lookupGrant none (some "solar sisterhood program".toList)
        [⟨"2025067".toList, "Solar Sister".toList⟩,
         ⟨"2025068".toList, "Toolkit Africa".toList⟩]
        = some ⟨"2025067".toList, "Solar Sister".toList⟩
    ∧ lookupGrant none (some "xyz".toList)
        [⟨"2025067".toList, "Solar Sister".toList⟩,
         ⟨"2025068".toList, "Toolkit Africa".toList⟩] = none := by
  refine ⟨?_, by decide, by decide⟩
  unfold lookupGrant lookupGrantSpec
  cases refRule referenceNumber cache with
  | some g => rfl
  | none =>
    dsimp only
    cases granteeName with
    | none => rfl
    | some nm =>
      dsimp only
      by_cases h0 : nm = []
      · simp [h0]
      · rw [if_neg h0, if_neg h0]
        by_cases h3 : (trimStr (toLowerStr nm)).length < 3
        · rw [if_pos h3, if_pos h3]
        · rw [if_neg h3, if_neg h3]
          cases containmentRule (trimStr (toLowerStr nm)) cache with
          | some g => rfl
          | none =>
            set qw := (wordsOf (trimStr (toLowerStr nm))).filter
              (fun w => w.length > 2) with hqw
            by_cases hn : qw.length > 0
            · rw [if_pos hn]
              rw [wordScoreFold_eq qw cache none 0]
              by_cases hc : 2 * specBestCount qw cache ≥ qw.length
              · have hpos : specBestCount qw cache > 0 := by omega
                rw [if_pos ⟨hpos, hc⟩, if_pos ⟨by omega, hc⟩]
              · rw [if_neg (by omega), if_neg (by omega)]
            · rw [if_neg hn, if_neg (by omega)]

example : natDigits 0 = "0".toList := by decide

example : natDigits 1699999999999 = "1699999999999".toList := by decide

theorem natDigitsCore_digits :
    ∀ (fuel n : Nat) (acc : Str), (∀ c ∈ acc, c.isDigit = true) →
      ∀ c ∈ natDigitsCore fuel n acc, c.isDigit = true := by
  intro fuel
  induction fuel with
  | zero => intro n acc hacc c hc; exact hacc c hc
  | succ fuel ih =>
    intro n acc hacc c hc
    have hdig : (Char.ofNat (48 + n % 10)).isDigit = true := by
      have hall : ∀ k, k < 10 → (Char.ofNat (48 + k)).isDigit = true := by decide
      exact hall (n % 10) (Nat.mod_lt _ (by omega))
    simp only [natDigitsCore] at hc
    by_cases h : n < 10
    · rw [if_pos h] at hc
      rcases List.mem_cons.mp hc with hc | hc
      · subst hc; exact hdig
      · exact hacc c hc
    · rw [if_neg h] at hc
      refine ih (n / 10) _ ?_ c hc
      intro d hd
      rcases List.mem_cons.mp hd with hd | hd
      · subst hd; exact hdig
      · exact hacc d hd

theorem natDigits_digits (n : Nat) : ∀ c ∈ natDigits n, c.isDigit = true :=
  natDigitsCore_digits (n + 1) n [] (by simp)

theorem natDigitsCore_fuel :
    ∀ (f1 f2 n : Nat) (acc : Str), n < f1 → n < f2 →
      natDigitsCore f1 n acc = natDigitsCore f2 n acc := by
  intro f1
  induction f1 with
  | zero => intro f2 n acc h1 h2; omega
  | succ f1 ih =>
    intro f2 n acc h1 h2
    cases f2 with
    | zero => omega
    | succ f2 =>
      simp only [natDigitsCore]
      by_cases h : n < 10
      · rw [if_pos h, if_pos h]
      · rw [if_neg h, if_neg h]
        exact ih f2 (n / 10) _ (by omega) (by omega)

theorem natDigitsCore_append :
    ∀ (fuel n : Nat) (acc : Str),
      natDigitsCore fuel n acc = natDigitsCore fuel n [] ++ acc := by
  intro fuel
  induction fuel with
  | zero => intro n acc; simp [natDigitsCore]
  | succ fuel ih =>
    intro n acc
    simp only [natDigitsCore]
    by_cases h : n < 10
    · rw [if_pos h, if_pos h]; rfl
    · rw [if_neg h, if_neg h, ih (n / 10) (Char.ofNat (48 + n % 10) :: acc),
        ih (n / 10) [Char.ofNat (48 + n % 10)]]
      simp

theorem digitsVal_append_digit (s : Str) (c : Char) :
    digitsVal (s ++ [c]) = digitsVal s * 10 + (c.toNat - 48) := by
  simp [digitsVal, List.foldl_append]

theorem digitsVal_natDigits (n : Nat) : digitsVal (natDigits n) = n := by
  induction n using Nat.strong_induction_on with
  | _ n ih =>
    by_cases h : n < 10
    · rw [natDigits]
      simp only [natDigitsCore, if_pos h]
      have hall : ∀ k, k < 10 → (Char.ofNat (48 + k)).toNat = 48 + k := by decide
      have hc : (Char.ofNat (48 + n % 10)).toNat = 48 + n % 10 :=
        hall (n % 10) (Nat.mod_lt _ (by omega))
      simp [digitsVal, hc]
      omega
    · have hstep : natDigits n = natDigits (n / 10) ++ [Char.ofNat (48 + n % 10)] := by
        rw [natDigits]
        simp only [natDigitsCore]
        rw [if_neg h]
        rw [natDigitsCore_fuel n (n / 10 + 1) (n / 10) _ (by omega) (by omega)]
        rw [natDigitsCore_append (n / 10 + 1) (n / 10) [Char.ofNat (48 + n % 10)]]
        rfl
      rw [hstep, digitsVal_append_digit, ih (n / 10) (by omega)]
      have hall : ∀ k, k < 10 → (Char.ofNat (48 + k)).toNat = 48 + k := by decide
      have hc : (Char.ofNat (48 + n % 10)).toNat = 48 + n % 10 :=
        hall (n % 10) (Nat.mod_lt _ (by omega))
      rw [hc]
      omega

theorem natDigits_injective {m n : Nat} (h : natDigits m = natDigits n) :
    m = n := by
  have := digitsVal_natDigits m
  rw [h, digitsVal_natDigits] at this
  omega

theorem underscore_sep_inj :
    ∀ (x1 y1 x2 y2 : Str),
      (∀ c ∈ x1, c.isDigit = true) → (∀ c ∈ x2, c.isDigit = true) →
      x1 ++ '_' :: y1 = x2 ++ '_' :: y2 → x1 = x2 ∧ y1 = y2 := by
  have hu : ('_' : Char).isDigit = false := by decide
  intro x1
  induction x1 with
  | nil =>
    intro y1 x2 y2 h1 h2 heq
    cases x2 with
    | nil => simpa using heq
    | cons d x2t =>
      exfalso
      have hd := h2 d (by simp)
      have hh : '_' = d := by
        have := congrArg (fun l => l.head?) heq
        simpa using this
      rw [← hh] at hd
      rw [hu] at hd
      exact Bool.false_ne_true hd
  | cons a x1t ih =>
    intro y1 x2 y2 h1 h2 heq
    cases x2 with
    | nil =>
      exfalso
      have ha := h1 a (by simp)
      have hh : a = '_' := by
        have := congrArg (fun l => l.head?) heq
        simpa using this
      rw [hh, hu] at ha
      exact Bool.false_ne_true ha
    | cons b x2t =>
      have hhead : a = b := by
        have := congrArg (fun l => l.head?) heq
        simpa using this
      have htail : x1t ++ '_' :: y1 = x2t ++ '_' :: y2 := by
        have := congrArg List.tail heq
        simpa using this
      have hr := ih y1 x2t y2 (fun c hc => h1 c (by simp [hc]))
        (fun c hc => h2 c (by simp [hc])) htail
      exact ⟨by rw [hhead, hr.1], hr.2⟩

/-- C9: every chunk built by `makeChunk` stores the same unique id in its
top-level `chunkUid` and its metadata `chunk_uid` field, and two
`makeChunk` calls observing distinct counter values (as any two calls in
one process do, the counter being incremented on every call) produce
distinct ids regardless of the observed times, so delete-by-id targets
exactly one chunk. -/
theorem makeChunk_uid_unique {α : Type} (time counter : Nat)
    (seg : SegChunk α) (t1 c1 t2 c2 : Nat) (hne : c1 ≠ c2) :
    (makeChunk time counter seg).metadata.chunk_uid
        = (makeChunk time counter seg).chunkUid
    ∧ makeChunkUid t1 c1 ≠ makeChunkUid t2 c2 := by
  refine ⟨rfl, fun h => ?_⟩
  rw [makeChunkUid, makeChunkUid, List.append_assoc, List.append_assoc] at h
  have h1 : natDigits t1 ++ '_' :: natDigits c1
      = natDigits t2 ++ '_' :: natDigits c2 := List.append_cancel_left h
  have hrev := congrArg List.reverse h1
  simp only [List.reverse_append, List.reverse_cons, List.append_assoc,
    List.singleton_append] at hrev
  have hsep := underscore_sep_inj (natDigits c1).reverse (natDigits t1).reverse
    (natDigits c2).reverse (natDigits t2).reverse
    (fun c hc => natDigits_digits c1 c (List.mem_reverse.mp hc))
    (fun c hc => natDigits_digits c2 c (List.mem_reverse.mp hc)) hrev
  have : natDigits c1 = natDigits c2 := by
    have := congrArg List.reverse hsep.1
    simpa using this
  exact hne (natDigits_injective this)

/-- Closed instantiation of `makeChunk_uid_unique` at concrete times and
counters. -/
theorem makeChunk_uid_unique_witness :
    ({ base := (), text := "t".toList, chunk_index := 0,
       section_type := SectionType.progress,
       section_heading := "h" : SegChunk Unit} |> fun seg =>
      (makeChunk 7 1 seg).metadata.chunk_uid = (makeChunk 7 1 seg).chunkUid
      ∧ makeChunkUid 7 1 ≠ makeChunkUid 7 2) :=
  makeChunk_uid_unique 7 1 _ 7 1 7 2 (by decide)

/-- C2, evaluation at the failing input: a store holding chunks with
generations 3 and 5 can answer the `topK: 1` dummy-vector query with the
generation-3 chunk (nothing orders the response by generation), and the
function then returns 3, not the maximum 5.  The fallback parts of the
claim hold: a failed query and an empty response both yield 0. -/
theorem getLatestSyncGeneration_not_max :
    validGenQueryResponse
      [{ id := "a", drive_file_modified := none, sync_generation := some 3 },
       { id := "b", drive_file_modified := none, sync_generation := some 5 }]
      [{ id := "a", drive_file_modified := none, sync_generation := some 3 }]
    ∧ getLatestSyncGeneration
        (some [{ id := "a", drive_file_modified := none,
                 sync_generation := some 3 }]) = 3
    ∧ maxSyncGeneration
        [{ id := "a", drive_file_modified := none, sync_generation := some 3 },
         { id := "b", drive_file_modified := none, sync_generation := some 5 }] = 5
    ∧ (3 : Nat) ≠ 5
    ∧ getLatestSyncGeneration none = 0
    ∧ getLatestSyncGeneration (some []) = 0 := by
  refine ⟨?_, rfl, by decide, by decide, rfl, rfl⟩
  unfold validGenQueryResponse
  decide

/-- C1, counterexample to the claim as stated: the store holds two chunks
for the file, the second carrying exactly the queried timestamp `"A"`,
yet `shouldSkipFile` answers false because it inspects only the first
returned chunk (whose stored timestamp is `"B"`). -/
theorem shouldSkipFile_first_chunk_counterexample :
    shouldSkipFile
      (some [{ id := "u1", drive_file_modified := some "B", sync_generation := none },
             { id := "u2", drive_file_modified := some "A", sync_generation := none }])
      "A" = false
    ∧ ∃ m ∈ getChunksByFileId
        (some [{ id := "u1", drive_file_modified := some "B", sync_generation := none },
               { id := "u2", drive_file_modified := some "A", sync_generation := none }]),
        m.drive_file_modified = some "A" := by
  refine ⟨rfl, ?_⟩
  exact ⟨{ id := "u2", drive_file_modified := some "A", sync_generation := none },
    by simp [getChunksByFileId], rfl⟩

/-- C1 (amended): `shouldSkipFile` returns true exactly when the query
succeeded with at least one chunk and the FIRST returned chunk carries a
non-empty recorded timestamp equal to the given one (absence, an empty
string, a mismatch on the first chunk, and a failed query — which
surfaces as an empty list — all yield false); and whenever the skip
check answers true for a supported file with a resolvable reference
number, the sync run counts the file as skipped and issues no store
calls for it, which is the re-ingestion idempotence consequence. -/
theorem shouldSkipFile_skip_semantics :
    (∀ (resp : Option (List StoredMatch)) (ts : String),
      shouldSkipFile resp ts = true ↔
        ((∃ m ms, getChunksByFileId resp = m :: ms ∧
            m.drive_file_modified = some ts) ∧ ts ≠ ""))
    ∧ (∀ (env : IngestEnv) (grants : List GrantRecord) (nextGen : Nat)
        (now : String) (folderDocType : DocumentType) (sf : SyncFile)
        (r : SyncResult) (ref : Str) (grant : GrantRecord),
        isSupportedFile sf.file.mimeType = true →
        (parseFilename env.extractName sf.file.name).referenceNumber = some ref →
        grantMapGet grants ref = some grant →
        shouldSkipFile sf.queryResp
          (if sf.file.modifiedTime = "" then now else sf.file.modifiedTime) = true →
        syncProcessFile env grants nextGen now folderDocType sf r
          = ({ r with skipped := r.skipped + 1 }, [])) := by
  constructor
  · intro resp ts
    cases hc : getChunksByFileId resp with
    | nil =>
      have hred : shouldSkipFile resp ts = false := by rw [shouldSkipFile, hc]
      rw [hred]
      simp
    | cons m ms =>
      have hred : shouldSkipFile resp ts
          = (match m.drive_file_modified with
             | none => false
             | some stored => if stored = "" then false else stored == ts) := by
        rw [shouldSkipFile, hc]
      rw [hred]
      cases hdm : m.drive_file_modified with
      | none =>
        constructor
        · intro h; simp at h
        · rintro ⟨⟨m', ms', hmm, hdm'⟩, hts⟩
          rw [List.cons.injEq] at hmm
          rw [← hmm.1, hdm] at hdm'
          simp at hdm'
      | some stored =>
        dsimp only
        by_cases hse : stored = ""
        · subst hse
          simp only [if_pos]
          constructor
          · intro h; simp at h
          · rintro ⟨⟨m', ms', hmm, hdm'⟩, hts⟩
            rw [List.cons.injEq] at hmm
            rw [← hmm.1, hdm] at hdm'
            injection hdm' with h2
            exact (hts h2.symm).elim
        · rw [if_neg hse]
          constructor
          · intro h
            have hst : stored = ts := by simpa using h
            exact ⟨⟨m, ms, rfl, by rw [hdm, hst]⟩, fun hts => hse (hst.trans hts)⟩
          · rintro ⟨⟨m', ms', hmm, hdm'⟩, hts⟩
            rw [List.cons.injEq] at hmm
            rw [← hmm.1, hdm] at hdm'
            injection hdm' with h2
            simp [h2]
  · intro env grants nextGen now folderDocType sf r ref grant hsup href hgrant hskip
    simp only [syncProcessFile, hsup, href, hgrant, hskip]
    simp

/-- Closed instantiation of `shouldSkipFile_skip_semantics`: re-ingesting
the unchanged demo file is counted as skipped and issues no store
calls. -/
theorem shouldSkipFile_skip_semantics_witness :
    syncProcessFile demoEnv [demoGrant] 2 "now"
      DocumentType.grant_description demoSyncFile
      { processed := 0, new := 0, updated := 0, skipped := 0, errors := [] }
      = ({ processed := 0, new := 0, updated := 0, skipped := 1, errors := [] }, []) :=
  shouldSkipFile_skip_semantics.2 demoEnv [demoGrant]
    2 "now" DocumentType.grant_description demoSyncFile
    { processed := 0, new := 0, updated := 0, skipped := 0, errors := [] }
    "2025067".toList demoGrant
    (by decide) (by decide) (by decide) (by decide)

/-- C7, counterexample to the claim as stated: for a Google-Sheets file the
raw download runs before the spreadsheet branch is reached, so a failing
download propagates out of `extractText` (the function throws) instead
of the documented warn-and-return-empty behaviour. -/
theorem extractText_spreadsheet_download_failure_counterexample :
    extractText
      { id := "f1", name := "sheet".toList, mimeType := mimeSheet,
        modifiedTime := "", webViewLink := none, exportOutcome := .ok [],
        downloadOutcome := .error "network error", pdfOutcome := .ok [],
        docxOutcome := .ok [], docOutcome := .ok [],
        deleteOutcome := .ok (), upsertOutcome := .ok () }
      = .error "network error" := by rfl

/-- C7 (amended): provided the raw byte download succeeds, `extractText`
returns the empty string — without throwing — for every media type
outside the six extraction branches (Google Docs export, PDF, DOCX,
legacy DOC, plain text, CSV): spreadsheets, presentations, images and
all unrecognized types alike. -/
theorem extractText_unsupported_returns_empty (f : DriveFile) (buf : Str)
    (hdl : f.downloadOutcome = .ok buf)
    (hm : f.mimeType ≠ mimeGoogleDoc ∧ f.mimeType ≠ mimePdf
      ∧ f.mimeType ≠ mimeDocx ∧ f.mimeType ≠ mimeDoc
      ∧ f.mimeType ≠ "text/plain" ∧ f.mimeType ≠ "text/csv") :
    extractText f = .ok [] := by
  obtain ⟨h1, h2, h3, h4, h5, h6⟩ := hm
  rw [extractText, if_neg h1, hdl]
  dsimp only
  rw [if_neg h2, if_neg h3, if_neg h4, if_neg (by tauto)]
  split
  · rfl
  · split
    · rfl
    · split
      · rfl
      · rfl

/-- Closed instantiation of `extractText_unsupported_returns_empty` at an
image file with a successful download. -/
theorem extractText_unsupported_returns_empty_witness :
    extractText
      { id := "f2", name := "pic.png".toList, mimeType := "image/png",
        modifiedTime := "", webViewLink := none, exportOutcome := .ok [],
        downloadOutcome := .ok "bytes".toList, pdfOutcome := .ok [],
        docxOutcome := .ok [], docOutcome := .ok [],
        deleteOutcome := .ok (), upsertOutcome := .ok () }
      = .ok [] :=
  extractText_unsupported_returns_empty _ "bytes".toList rfl
    (by refine ⟨?_, ?_, ?_, ?_, ?_, ?_⟩ <;> decide)

/-- C6: whenever the LLM-assisted segmentation cannot run or fails — the
credential is missing (or empty), or the call threw, or its output did
not parse as the expected structure (both modelled by the call returning
`none`) — `chunkTranscriptWithClaude` returns exactly the deterministic
paragraph segmentation of the full, untruncated text; and the per-file
pipeline records the same thrown-error outcome and error list no matter
what the credential and the LLM call do, so such a failure never adds an
entry to the run's error list. -/
theorem chunkTranscriptWithClaude_fallback {α : Type} (text : Str)
    (documentType : DocumentType) (base : α) (apiKey : Option String)
    (llm : Str → Option ClaudeTranscriptResult)
    (hfail : apiKey = none ∨ apiKey = some ""
      ∨ llm (truncateForClaude text) = none) :
    chunkTranscriptWithClaude text documentType base apiKey llm
      = chunkTranscriptByParagraph text base
    ∧ ∀ (env : IngestEnv) (opts : IngestionOptions) (fdt : DocumentType)
        (file : DriveFile) (r : IngestionResult) (key2 : Option String)
        (llm2 : Str → Option ClaudeTranscriptResult),
        ((processFile env opts fdt file r).1).errors
            = ((processFile { env with apiKey := key2, llm := llm2 }
                opts fdt file r).1).errors
        ∧ (processFile env opts fdt file r).2.1
            = (processFile { env with apiKey := key2, llm := llm2 }
                opts fdt file r).2.1 := by
  constructor
  · rcases hfail with h | h | h
    · simp [chunkTranscriptWithClaude, h]
    · simp [chunkTranscriptWithClaude, h]
    · by_cases hk : apiKey = none ∨ apiKey = some ""
      · simp [chunkTranscriptWithClaude, hk]
      · simp [chunkTranscriptWithClaude, hk, h]
  · intro env opts fdt file r key2 llm2
    cases hext : extractText file with
    | error e => simp [processFile, hext]
    | ok text2 =>
      by_cases hsk : text2 = [] ∨ (trimStr text2).length < 50
      · simp [processFile, hext, hsk]
      · cases hreg : env.registry with
        | error e => simp [processFile, hext, hsk, hreg]
        | ok regs =>
          by_cases hdry : opts.dryRun
          · simp [processFile, hext, hsk, hreg, hdry]
          · by_cases hforce : opts.forceReprocess
            · cases hdel : file.deleteOutcome with
              | error e => simp [processFile, hext, hsk, hreg, hdry, hforce, hdel]
              | ok u =>
                cases hup : file.upsertOutcome with
                | error e =>
                  simp [processFile, hext, hsk, hreg, hdry, hforce, hdel, hup]
                | ok u2 =>
                  simp [processFile, hext, hsk, hreg, hdry, hforce, hdel, hup]
            · cases hup : file.upsertOutcome with
              | error e =>
                simp [processFile, hext, hsk, hreg, hdry, hforce, hup]
              | ok u2 =>
                simp [processFile, hext, hsk, hreg, hdry, hforce, hup]

/-- Closed instantiation of `chunkTranscriptWithClaude_fallback`: with no
credential the result is exactly the deterministic segmentation. -/
theorem chunkTranscriptWithClaude_fallback_witness :
    chunkTranscriptWithClaude "hello world".toList
      DocumentType.closeout_transcript () none (fun _ => none)
      = chunkTranscriptByParagraph "hello world".toList () :=
  (chunkTranscriptWithClaude_fallback "hello world".toList
    DocumentType.closeout_transcript () none (fun _ => none)
    (Or.inl rfl)).1

theorem processFile_dry_ops (env : IngestEnv) (opts : IngestionOptions)
    (fdt : DocumentType) (f : DriveFile) (r : IngestionResult)
    (hdry : opts.dryRun = true) :
    (processFile env opts fdt f r).2.2 = [] := by
  cases hext : extractText f with
  | error e => simp [processFile, hext]
  | ok text =>
    by_cases hsk : text = [] ∨ (trimStr text).length < 50
    · simp [processFile, hext, hsk]
    · cases hreg : env.registry with
      | error e => simp [processFile, hext, hsk, hreg]
      | ok regs => simp [processFile, hext, hsk, hreg, hdry]

theorem processFile_dry_live (env : IngestEnv) (opts : IngestionOptions)
    (fdt : DocumentType) (f : DriveFile) (r : IngestionResult)
    (hdry : opts.dryRun = true)
    (hok : f.upsertOutcome = .ok () ∧ f.deleteOutcome = .ok ()) :
    processFile env opts fdt f r
      = ((processFile env { opts with dryRun := false } fdt f r).1,
         (processFile env { opts with dryRun := false } fdt f r).2.1, []) := by
  cases hext : extractText f with
  | error e => simp [processFile, hext]
  | ok text =>
    by_cases hsk : text = [] ∨ (trimStr text).length < 50
    · simp [processFile, hext, hsk]
    · cases hreg : env.registry with
      | error e => simp [processFile, hext, hsk, hreg]
      | ok regs =>
        by_cases hforce : opts.forceReprocess
        · simp [processFile, hext, hsk, hreg, hdry, hforce, hok.1, hok.2]
        · simp [processFile, hext, hsk, hreg, hdry, hforce, hok.1]

theorem ingestFilesLoop_dry_ops (env : IngestEnv) (opts : IngestionOptions)
    (fdt : DocumentType) (hdry : opts.dryRun = true) :
    ∀ (files : List DriveFile) (r : IngestionResult) (ops : List StoreOp),
      (ingestFilesLoop env opts fdt files r ops).2 = ops := by
  intro files
  induction files with
  | nil => intro r ops; rfl
  | cons f rest ih =>
    intro r ops
    rcases hpf : processFile env opts fdt f r with ⟨r', eopt, fops⟩
    have hfe : fops = [] := by
      have := processFile_dry_ops env opts fdt f r hdry
      rw [hpf] at this
      exact this
    subst hfe
    cases eopt with
    | none => simp only [ingestFilesLoop, hpf, List.append_nil]; exact ih r' ops
    | some e => simp only [ingestFilesLoop, hpf, List.append_nil]; exact ih _ ops

theorem ingestFilesLoop_dry_live (env : IngestEnv) (opts : IngestionOptions)
    (fdt : DocumentType) (hdry : opts.dryRun = true) :
    ∀ (files : List DriveFile) (r : IngestionResult) (ops1 ops2 : List StoreOp),
      (∀ f ∈ files, f.upsertOutcome = .ok () ∧ f.deleteOutcome = .ok ()) →
      (ingestFilesLoop env opts fdt files r ops1).1
        = (ingestFilesLoop env { opts with dryRun := false } fdt files r ops2).1 := by
  intro files
  induction files with
  | nil => intro r ops1 ops2 h; rfl
  | cons f rest ih =>
    intro r ops1 ops2 h
    rcases hpf : processFile env { opts with dryRun := false } fdt f r
      with ⟨r', eopt, fops⟩
    have hdl := processFile_dry_live env opts fdt f r hdry (h f (by simp))
    rw [hpf] at hdl
    cases eopt with
    | none =>
      simp only [ingestFilesLoop, hdl, hpf]
      exact ih r' _ _ (fun g hg => h g (by simp [hg]))
    | some e =>
      simp only [ingestFilesLoop, hdl, hpf]
      exact ih _ _ _ (fun g hg => h g (by simp [hg]))

theorem ingestFoldersLoop_dry_ops (env : IngestEnv) (opts : IngestionOptions)
    (hdry : opts.dryRun = true) :
    ∀ (folders : List FolderSpec) (r : IngestionResult) (ops : List StoreOp),
      (ingestFoldersLoop env opts folders r ops).2 = ops := by
  intro folders
  induction folders with
  | nil => intro r ops; rfl
  | cons folder rest ih =>
    intro r ops
    cases hl : folder.listing with
    | error msg => simp only [ingestFoldersLoop, hl]; exact ih _ ops
    | ok files =>
      simp only [ingestFoldersLoop, hl]
      rw [ih]
      exact ingestFilesLoop_dry_ops env opts folder.documentType hdry files _ ops

theorem ingestFoldersLoop_dry_live (env : IngestEnv) (opts : IngestionOptions)
    (hdry : opts.dryRun = true) :
    ∀ (folders : List FolderSpec) (r : IngestionResult) (ops1 ops2 : List StoreOp),
      (∀ folder ∈ folders, ∀ files, folder.listing = .ok files →
        ∀ f ∈ files, f.upsertOutcome = .ok () ∧ f.deleteOutcome = .ok ()) →
      (ingestFoldersLoop env opts folders r ops1).1
        = (ingestFoldersLoop env { opts with dryRun := false } folders r ops2).1 := by
  intro folders
  induction folders with
  | nil => intro r ops1 ops2 h; rfl
  | cons folder rest ih =>
    intro r ops1 ops2 h
    cases hl : folder.listing with
    | error msg =>
      simp only [ingestFoldersLoop, hl]
      exact ih _ _ _ (fun g hg => h g (by simp [hg]))
    | ok files =>
      simp only [ingestFoldersLoop, hl]
      have hfiles := ingestFilesLoop_dry_live env opts folder.documentType hdry
        files { r with totalFiles := r.totalFiles + files.length } ops1 ops2
        (h folder (by simp) files hl)
      rw [hfiles]
      exact ih _ _ _ (fun g hg => h g (by simp [hg]))

/-- C8: with the dry-run flag enabled the orchestrator issues zero store
calls — no upsert, no delete — and, whenever the corresponding live run
would have succeeded at every store call, the dry run reports exactly
the same aggregate result: the same total, processed, skipped and chunk
counts (and the same error and unmatched lists). -/
theorem dry_run_no_side_effects (env : IngestEnv) (opts : IngestionOptions)
    (hdry : opts.dryRun = true) :
    (runIngestion env opts).2 = []
    ∧ ((∀ folder ∈ selectedFolders env opts, ∀ files,
          folder.listing = .ok files →
          ∀ f ∈ files, f.upsertOutcome = .ok () ∧ f.deleteOutcome = .ok ()) →
        (runIngestion env opts).1
          = (runIngestion env { opts with dryRun := false }).1) := by
  constructor
  · exact ingestFoldersLoop_dry_ops env opts hdry (selectedFolders env opts)
      emptyIngestionResult []
  · intro h
    have hsel : selectedFolders env { opts with dryRun := false }
        = selectedFolders env opts := rfl
    rw [runIngestion, runIngestion, hsel]
    exact ingestFoldersLoop_dry_live env opts hdry (selectedFolders env opts)
      emptyIngestionResult [] [] h

/-- Closed instantiation of `dry_run_no_side_effects` on a one-folder,
one-file environment. -/
theorem dry_run_no_side_effects_witness :
    (runIngestion demoIngestEnv demoDryOpts).2 = []
    ∧ (runIngestion demoIngestEnv demoDryOpts).1
      = (runIngestion demoIngestEnv { demoDryOpts with dryRun := false }).1 := by
  have h := dry_run_no_side_effects demoIngestEnv demoDryOpts rfl
  refine ⟨h.1, h.2 ?_⟩
  intro folder hf files hl f hfl
  simp only [selectedFolders, demoIngestEnv, demoEnv, demoFolder, demoDryOpts] at hf
  simp at hf
  subst hf
  simp at hl
  subst hl
  simp at hfl
  subst hfl
  exact ⟨rfl, rfl⟩

theorem processFile_delta (env : IngestEnv) (opts : IngestionOptions)
    (fdt : DocumentType) (f : DriveFile) (r : IngestionResult) :
    ((processFile env opts fdt f r).1).totalFiles = r.totalFiles
    ∧ ((processFile env opts fdt f r).1).errors = r.errors
    ∧ ((processFile env opts fdt f r).1).processedFiles
        + ((processFile env opts fdt f r).1).skippedFiles
        + (match (processFile env opts fdt f r).2.1 with
           | some _ => 1
           | none => 0)
      = r.processedFiles + r.skippedFiles + 1 := by
  cases hext : extractText f with
  | error e => simp [processFile, hext]
  | ok text =>
    by_cases hsk : text = [] ∨ (trimStr text).length < 50
    · simp [processFile, hext, hsk]
      omega
    · cases hreg : env.registry with
      | error e => simp [processFile, hext, hsk, hreg]
      | ok regs =>
        cases hlk : lookupGrant (parseFilename env.extractName f.name).referenceNumber
            (parseFilename env.extractName f.name).granteeName regs <;>
          by_cases hdry : opts.dryRun <;>
          by_cases hforce : opts.forceReprocess <;>
          cases hdel : f.deleteOutcome <;>
          cases hup : f.upsertOutcome <;>
          simp [processFile, hext, hsk, hreg, hdry, hforce, hdel, hup, hlk] <;>
          omega

theorem ingestFilesLoop_acct (env : IngestEnv) (opts : IngestionOptions)
    (fdt : DocumentType) :
    ∀ (files : List DriveFile) (r : IngestionResult) (ops : List StoreOp),
      ((ingestFilesLoop env opts fdt files r ops).1).totalFiles = r.totalFiles
      ∧ ((ingestFilesLoop env opts fdt files r ops).1).processedFiles
          + ((ingestFilesLoop env opts fdt files r ops).1).skippedFiles
          + ((ingestFilesLoop env opts fdt files r ops).1).errors.length
        = r.processedFiles + r.skippedFiles + r.errors.length + files.length
      ∧ ∀ x ∈ r.errors, x ∈ ((ingestFilesLoop env opts fdt files r ops).1).errors := by
  intro files
  induction files with
  | nil =>
    intro r ops
    simp only [ingestFilesLoop, List.length_nil]
    exact ⟨by trivial, by omega, fun x hx => hx⟩
  | cons f rest ih =>
    intro r ops
    rcases hpf : processFile env opts fdt f r with ⟨r', eopt, fops⟩
    have hdelta := processFile_delta env opts fdt f r
    rw [hpf] at hdelta
    obtain ⟨htf, herr, hcnt⟩ := hdelta
    cases eopt with
    | none =>
      simp only [ingestFilesLoop, hpf]
      obtain ⟨ih1, ih2, ih3⟩ := ih r' (ops ++ fops)
      refine ⟨by rw [ih1, htf], ?_, ?_⟩
      · simp at hcnt
        rw [ih2, herr]
        simp only [List.length_cons]
        omega
      · intro x hx
        exact ih3 x (by rw [herr]; exact hx)
    | some e =>
      simp only [ingestFilesLoop, hpf]
      obtain ⟨ih1, ih2, ih3⟩ :=
        ih { r' with errors := r'.errors ++ [(f.name, e)] } (ops ++ fops)
      refine ⟨by rw [ih1]; exact htf, ?_, ?_⟩
      · simp at hcnt
        rw [ih2]
        show r'.processedFiles + r'.skippedFiles
            + (r'.errors ++ [(f.name, e)]).length + rest.length
          = r.processedFiles + r.skippedFiles + r.errors.length
            + (f :: rest).length
        rw [herr]
        simp only [List.length_append, List.length_cons, List.length_singleton,
          List.length_nil]
        omega
      · intro x hx
        refine ih3 x ?_
        show x ∈ r'.errors ++ [(f.name, e)]
        rw [herr]
        exact List.mem_append.mpr (Or.inl hx)

theorem ingestFoldersLoop_acct (env : IngestEnv) (opts : IngestionOptions) :
    ∀ (folders : List FolderSpec) (r : IngestionResult) (ops : List StoreOp),
      ((ingestFoldersLoop env opts folders r ops).1).totalFiles
        = r.totalFiles + (folders.map okFileCount).sum
      ∧ ((ingestFoldersLoop env opts folders r ops).1).processedFiles
          + ((ingestFoldersLoop env opts folders r ops).1).skippedFiles
          + ((ingestFoldersLoop env opts folders r ops).1).errors.length
        = r.processedFiles + r.skippedFiles + r.errors.length
          + (folders.map okFileCount).sum + (folders.filter listingFailed).length
      ∧ (∀ x ∈ r.errors, x ∈ ((ingestFoldersLoop env opts folders r ops).1).errors)
      ∧ (∀ folder ∈ folders, ∀ msg, folder.listing = .error msg →
          (folder.label, "Folder listing failed: " ++ msg)
            ∈ ((ingestFoldersLoop env opts folders r ops).1).errors) := by
  intro folders
  induction folders with
  | nil =>
    intro r ops
    simp only [ingestFoldersLoop, List.map_nil, List.sum_nil,
      List.filter_nil, List.length_nil]
    exact ⟨by omega, by omega, fun x hx => hx, by simp⟩
  | cons folder rest ih =>
    intro r ops
    cases hl : folder.listing with
    | error msg =>
      simp only [ingestFoldersLoop, hl]
      obtain ⟨ih1, ih2, ih3, ih4⟩ :=
        ih { r with errors :=
          r.errors ++ [(folder.label, "Folder listing failed: " ++ msg)] } ops
      have hfc : okFileCount folder = 0 := by simp [okFileCount, hl]
      have hff : listingFailed folder = true := by simp [listingFailed, hl]
      refine ⟨?_, ?_, ?_, ?_⟩
      · rw [ih1]
        simp [hfc]
      · rw [ih2]
        show _ = r.processedFiles + r.skippedFiles + r.errors.length
          + (okFileCount folder + (rest.map okFileCount).sum)
          + ((folder :: rest).filter listingFailed).length
        rw [List.filter_cons_of_pos (by rw [hff]), hfc]
        show r.processedFiles + r.skippedFiles
            + (r.errors ++ [(folder.label, "Folder listing failed: " ++ msg)]).length
            + (rest.map okFileCount).sum + (rest.filter listingFailed).length = _
        simp only [List.length_append, List.length_cons, List.length_nil]
        omega
      · intro x hx
        refine ih3 x ?_
        show x ∈ r.errors ++ _
        exact List.mem_append.mpr (Or.inl hx)
      · intro g hg msg2 hgl
        rcases List.mem_cons.mp hg with hg | hg
        · rw [hg] at hgl ⊢
          rw [hl] at hgl
          injection hgl with hmsg
          rw [← hmsg]
          refine ih3 _ ?_
          show _ ∈ r.errors ++ [(folder.label, "Folder listing failed: " ++ msg)]
          exact List.mem_append.mpr (Or.inr (by simp))
        · exact ih4 g hg msg2 hgl
    | ok files =>
      simp only [ingestFoldersLoop, hl]
      obtain ⟨fl1, fl2, fl3⟩ := ingestFilesLoop_acct env opts folder.documentType
        files { r with totalFiles := r.totalFiles + files.length } ops
      obtain ⟨ih1, ih2, ih3, ih4⟩ := ih
        (ingestFilesLoop env opts folder.documentType files
          { r with totalFiles := r.totalFiles + files.length } ops).1
        (ingestFilesLoop env opts folder.documentType files
          { r with totalFiles := r.totalFiles + files.length } ops).2
      have hfc : okFileCount folder = files.length := by simp [okFileCount, hl]
      have hff : listingFailed folder = false := by simp [listingFailed, hl]
      refine ⟨?_, ?_, ?_, ?_⟩
      · rw [ih1, fl1]
        show r.totalFiles + files.length + _ = _
        simp only [List.map_cons, List.sum_cons, hfc]
        omega
      · rw [ih2, fl2]
        show r.processedFiles + r.skippedFiles
            + ({ r with totalFiles := r.totalFiles + files.length } :
                IngestionResult).errors.length
            + files.length + (rest.map okFileCount).sum
            + (rest.filter listingFailed).length = _
        rw [List.filter_cons_of_neg (by rw [hff]; exact Bool.false_ne_true)]
        simp only [List.map_cons, List.sum_cons, hfc]
        omega
      · intro x hx
        exact ih3 x (fl3 x hx)
      · intro g hg msg2 hgl
        rcases List.mem_cons.mp hg with hg | hg
        · rw [hg, hl] at hgl
          exact absurd hgl (by simp)
        · exact ih4 g hg msg2 hgl

/-- C10: at the end of every run, the total file count equals the sum of
the listing sizes of the successfully listed selected folders, and every
listed file lands in exactly one of the three outcomes — counted
processed, counted skipped, or recorded as one error entry — so that
`totalFiles` plus the number of failed folder listings equals
`processedFiles + skippedFiles + errors.length`; a folder whose listing
fails contributes one error entry keyed by its label and nothing to
`totalFiles`. -/
theorem runIngestion_file_accounting (env : IngestEnv)
    (opts : IngestionOptions) :
    ((runIngestion env opts).1).totalFiles
        = ((selectedFolders env opts).map okFileCount).sum
    ∧ ((runIngestion env opts).1).totalFiles
        + ((selectedFolders env opts).filter listingFailed).length
      = ((runIngestion env opts).1).processedFiles
        + ((runIngestion env opts).1).skippedFiles
        + ((runIngestion env opts).1).errors.length
    ∧ ∀ folder ∈ selectedFolders env opts, ∀ msg,
        folder.listing = .error msg →
        (folder.label, "Folder listing failed: " ++ msg)
          ∈ ((runIngestion env opts).1).errors := by
  obtain ⟨h1, h2, h3, h4⟩ := ingestFoldersLoop_acct env opts
    (selectedFolders env opts) emptyIngestionResult []
  refine ⟨?_, ?_, h4⟩
  · rw [runIngestion, h1]
    simp [emptyIngestionResult]
  · rw [runIngestion, h1, h2]
    simp [emptyIngestionResult]

/-- Closed instantiation of `runIngestion_file_accounting` on an
environment with one folder whose listing fails. -/
theorem runIngestion_file_accounting_witness :
    ((runIngestion { demoEnv with folders := [demoBrokenFolder] }
      { folderIds := none, dryRun := true, forceReprocess := false,
        useClaudeChunking := false }).1).totalFiles = 0
    ∧ ("Broken".toList, "Folder listing failed: quota exceeded")
        ∈ ((runIngestion { demoEnv with folders := [demoBrokenFolder] }
          { folderIds := none, dryRun := true, forceReprocess := false,
            useClaudeChunking := false }).1).errors := by
  have h := runIngestion_file_accounting
    { demoEnv with folders := [demoBrokenFolder] }
    { folderIds := none, dryRun := true, forceReprocess := false,
      useClaudeChunking := false }
  refine ⟨by decide, ?_⟩
  refine h.2.2 demoBrokenFolder ?_ "quota exceeded" rfl
  simp [selectedFolders]
